import Mathlib

/-
Verification of the textual migration engine of the boutdata repository
(src/boutupgrader/bout_v5_macro_upgrader.py, src/boutupgrader/bout_v6_coordinates_upgrader.py
and the standalone src/bout-v5-macro-upgrader.py script).

Text is modelled as `List Char`.  Python regular expressions used by the code are
simple enough that each concrete pattern is embedded as a dedicated matching
function, faithful to the `re` semantics (leftmost match, greedy quantifiers,
non-overlapping substitution, `\b` word boundaries, `\s` whitespace classes).
Python exceptions (KeyError / IndexError) are modelled with `Option`:
`none` means the function raises.
-/

namespace BoutUpgrade

/-- Python regex `\w` on the ASCII identifiers handled by the tool:
letters, digits and underscore. -/
def isWordChar (c : Char) : Bool :=
  c.isAlpha || c.isDigit || c = '_'

/-- Python regex `\s` (and `str.strip` default set): space, tab, newline,
carriage return, vertical tab, form feed. -/
def isPySpace (c : Char) : Bool :=
  c = ' ' || c = '\t' || c = '\n' || c = '\r' || c = '\x0b' || c = '\x0c'

/-- `isWordChar` lifted to an optional character; `none` (start or end of the
text) counts as a non-word position, as in Python `\b`. -/
def isWordOpt : Option Char → Bool
  | none => false
  | some c => isWordChar c

/-- Split on a single newline character, always returning at least one
(possibly empty) piece; helper for `splitlines`. -/
def splitOnNl : List Char → List (List Char)
  | [] => [[]]
  | c :: rest =>
    if c = '\n' then [] :: splitOnNl rest
    else
      match splitOnNl rest with
      | [] => [[c]]
      | p :: ps => (c :: p) :: ps

/-- Python `str.splitlines` for `\n`-separated text: like splitting on `\n`
but without a final empty piece ("a\n".splitlines() == ["a"], "".splitlines() == []). -/
def splitlines (s : List Char) : List (List Char) :=
  match s with
  | [] => []
  | _ =>
    let parts := splitOnNl s
    if parts.getLast? = some [] then parts.dropLast else parts

/-- Python `"\n".join(lines)`. -/
def joinLines (lines : List (List Char)) : List Char :=
  List.intercalate ['\n'] lines

/-- Consume a literal prefix, returning the remainder. -/
def stripLit : List Char → List Char → Option (List Char)
  | [], s => some s
  | _ :: _, [] => none
  | p :: ps, c :: cs => if c = p then stripLit ps cs else none

/-- Greedy `\s*`: drop the maximal run of Python whitespace. -/
def dropSpacesStar : List Char → List Char
  | [] => []
  | c :: cs => if isPySpace c then dropSpacesStar cs else c :: cs

/-- Substring test: `hasSubstring pat s` holds iff `pat` occurs contiguously in `s`. -/
def hasSubstring (pat : List Char) : List Char → Bool
  | [] => decide (pat = [])
  | c :: rest => (stripLit pat (c :: rest)).isSome || hasSubstring pat rest

/-- One step of the Python regex search `\b{old}\b`: does the pattern match at
the head of `s`, given the character just before `s` (`prev`)?  `old` consists
of word characters, so the boundaries require a non-word `prev` and a non-word
(or absent) follower. -/
def wordMatchHere (old : List Char) (prev : Option Char) (s : List Char) : Bool :=
  match stripLit old s with
  | none => false
  | some rest =>
    (isWordOpt prev != isWordOpt s.head?) && (isWordOpt (old.getLast?.getD (prev.getD ' ')) != isWordOpt rest.head?)

/-- Tail-scan for `re.search(rf"\b{old}\b", source)` tracking the previous character. -/
def wordOccursAux (old : List Char) (prev : Option Char) : List Char → Bool
  | [] => wordMatchHere old prev []
  | c :: rest => wordMatchHere old prev (c :: rest) || wordOccursAux old (some c) rest

/-- `re.search(rf"\b{old}\b", source) is not None`. -/
def wordOccurs (old source : List Char) : Bool :=
  wordOccursAux old none source

/-! ## Directive-line matchers (bout_v5_macro_upgrader.py)

`fix_ifdefs` classifies each line with three anchored patterns:
`re.match(r"#\s*(ifn?def)\s*(.*)", line)`, `re.match(r"#\s*else", line)`,
`re.match(r"#\s*endif", line)`. -/

/-- `re.match(r"#\s*(ifn?def)\s*(.*)", line)`: on success, returns the
directive kind (`true` for `ifdef`, `false` for `ifndef`) and group 2, the
rest of the line after the greedy `\s*`. -/
def matchIfdef (line : List Char) : Option (Bool × List Char) :=
  match line with
  | '#' :: rest =>
    let r1 := dropSpacesStar rest
    match stripLit ['i', 'f', 'n', 'd', 'e', 'f'] r1 with
    | some r2 => some (false, dropSpacesStar r2)
    | none =>
      match stripLit ['i', 'f', 'd', 'e', 'f'] r1 with
      | some r2 => some (true, dropSpacesStar r2)
      | none => none
  | _ => none

/-- `re.match(r"#\s*else", line) is not None`. -/
def matchElse (line : List Char) : Bool :=
  match line with
  | '#' :: rest => (stripLit ['e', 'l', 's', 'e'] (dropSpacesStar rest)).isSome
  | _ => false

/-- `re.match(r"#\s*endif", line) is not None`. -/
def matchEndif (line : List Char) : Bool :=
  match line with
  | '#' :: rest => (stripLit ['e', 'n', 'd', 'i', 'f'] (dropSpacesStar rest)).isSome
  | _ => false

/-- How one line is treated by the `fix_ifdefs` scan loop.  The three regexes
are mutually exclusive (they require `if…`, `el…`, `en…` after `#\s*`), so the
Python branch order (endif, else, ifdef) collapses to a single classification. -/
inductive LineKind where
  | plain : LineKind
  | condDir (isIfdefKind : Bool) (name : List Char) : LineKind
  | elseDir : LineKind
  | endifDir : LineKind
deriving DecidableEq, Repr

/-- Classify a line the way the loop body of `fix_ifdefs` does. -/
def classify (line : List Char) : LineKind :=
  if matchEndif line then .endifDir
  else if matchElse line then .elseDir
  else
    match matchIfdef line with
    | some (k, name) => .condDir k name
    | none => .plain

/-- The dict appended to `macro_blocks`:
`{"start": …, "if_def_type": "ifdef"|"ifndef", "else": …, "end": …}`.
The `else` and `end` keys may be absent (`none`).  (`if_def_type` is a string
in Python; since strings are never equal to the integer line numbers, its
membership in the removal set below has no effect and it is kept as a Bool.) -/
structure MacroBlock where
  startLine : Nat
  isIfdefKind : Bool
  elseLine : Option Nat
  endLine : Option Nat
deriving DecidableEq, Repr

/-- State of the `fix_ifdefs` scan: current line number, the `in_ifdef`
nesting counter (`none` = Python `None`), and `macro_blocks` with the most
recent block first (Python appends, `macro_blocks[-1]` is our head). -/
structure ScanSt where
  idx : Nat
  inIf : Option Nat
  blocks : List MacroBlock
deriving DecidableEq, Repr

/-- Mutate `macro_blocks[-1]["end"]` (head of our newest-first list).
`in_ifdef` is only non-`None` after a block was appended, so the list is
never empty when this is reached in the source. -/
def setEnd (i : Nat) : List MacroBlock → List MacroBlock
  | [] => []
  | b :: bs => { b with endLine := some i } :: bs

/-- Mutate `macro_blocks[-1]["else"]`. -/
def setElse (i : Nat) : List MacroBlock → List MacroBlock
  | [] => []
  | b :: bs => { b with elseLine := some i } :: bs

/-- One iteration of the `for linenumber, line in enumerate(source_lines)`
loop of `fix_ifdefs`. -/
def scanStep (old : List Char) (st : ScanSt) (line : List Char) : ScanSt :=
  match classify line with
  | .plain => ⟨st.idx + 1, st.inIf, st.blocks⟩
  | .endifDir =>
    match st.inIf with
    | none => ⟨st.idx + 1, none, st.blocks⟩
    | some d =>
      if d = 1 then ⟨st.idx + 1, none, setEnd st.idx st.blocks⟩
      else ⟨st.idx + 1, some (d - 1), st.blocks⟩
  | .elseDir =>
    if st.inIf = some 1 then ⟨st.idx + 1, st.inIf, setElse st.idx st.blocks⟩
    else ⟨st.idx + 1, st.inIf, st.blocks⟩
  | .condDir k name =>
    if name = old then
      ⟨st.idx + 1, some 1, ⟨st.idx, k, none, none⟩ :: st.blocks⟩
    else
      match st.inIf with
      | some d => ⟨st.idx + 1, some (d + 1), st.blocks⟩
      | none => ⟨st.idx + 1, none, st.blocks⟩

/-- The whole scan loop; returns `macro_blocks` (newest first). -/
def scanBlocks (old : List Char) (lines : List (List Char)) : List MacroBlock :=
  (lines.foldl (scanStep old) ⟨0, none, []⟩).blocks

/-- The lines removed for one block (`lines_to_remove` contributions).
`none` models a Python `KeyError` on a missing `"end"` key:
* `ifdef` with an `"else"` key: `set(range(block["else"], block["end"]))` reads `"end"`;
* `ifndef`: `block.get("else", block["end"])` evaluates `block["end"]` eagerly. -/
def blockRemoval (b : MacroBlock) : Option (List Nat) :=
  let vals := b.startLine :: (b.elseLine.toList ++ b.endLine.toList)
  if b.isIfdefKind then
    match b.elseLine with
    | none => some vals
    | some e =>
      match b.endLine with
      | none => none
      | some n => some (vals ++ List.range' e (n - e))
  else
    match b.endLine with
    | none => none
    | some n => some (vals ++ List.range' b.startLine (b.elseLine.getD n - b.startLine))

/-- Union of the removal contributions of all blocks. -/
def removalLines : List MacroBlock → Option (List Nat)
  | [] => some []
  | b :: bs =>
    match blockRemoval b, removalLines bs with
    | some r, some rs => some (r ++ rs)
    | _, _ => none

/-- `[line for num, line in enumerate(source_lines) if num not in lines_to_remove]`,
with the running index made explicit. -/
def keepFrom (rem : List Nat) (i : Nat) : List (List Char) → List (List Char)
  | [] => []
  | l :: ls => if rem.contains i then keepFrom rem (i + 1) ls else l :: keepFrom rem (i + 1) ls

/-- `fix_ifdefs` of src/boutupgrader/bout_v5_macro_upgrader.py.
`none` models the KeyError raised for a tracked block with no recorded
`"end"` line (see `blockRemoval`). -/
def fix_ifdefs (old source : List Char) : Option (List Char) :=
  let lines := splitlines source
  let blocks := scanBlocks old lines
  if blocks = [] then some source
  else
    match removalLines blocks with
    | none => none
    | some rem => some (joinLines (keepFrom rem 0 lines))

/-! ## Header Include Manager (fix_include_version_header) -/

/-- Match the regex fragment `{header}` where the header name is spliced into
the pattern verbatim, so its `.` characters are regex wildcards (any character
except newline).  Returns the remainder on success. -/
def matchHeaderPat : List Char → List Char → Option (List Char)
  | [], s => some s
  | _ :: _, [] => none
  | p :: ps, c :: cs =>
    if p = '.' then (if c = '\n' then none else matchHeaderPat ps cs)
    else if c = p then matchHeaderPat ps cs else none

/-- Scan for `(<|"){header}(>|")` in the given tail, the `.*` before it in
the pattern consuming the skipped characters: since `.` does not match a
newline, the scan stops at the first `\n` (the opening `<`/`"` itself can
never be a newline either). -/
def findQuotedHeader (header : List Char) : List Char → Bool
  | [] => false
  | c :: rest =>
    ((c = '<' || c = '"') &&
      (match matchHeaderPat header rest with
       | some (c2 :: _) => c2 = '>' || c2 = '"'
       | _ => false)) ||
    (if c = '\n' then false else findQuotedHeader header rest)

/-- `#\s*include` at the current position, followed by a given continuation
test.  `\s*` is Python whitespace and may cross newlines (`isPySpace`
includes `\n`). -/
def matchIncludeThen (cont : List Char → Bool) (line : List Char) : Bool :=
  match line with
  | '#' :: rest =>
    match stripLit ['i', 'n', 'c', 'l', 'u', 'd', 'e'] (dropSpacesStar rest) with
    | some r => cont r
    | none => false
  | _ => false

/-- Scan the text for a match of `#\s*include.*(<|"){header}(>|")` starting
at a line-start position (the `^` of the MULTILINE search: offset 0 or just
after a `\n`).  The Boolean argument records whether the current position is
such a line start. -/
def searchIncludeHeaderAux (header : List Char) : Bool → List Char → Bool
  | _, [] => false
  | atStart, c :: rest =>
    (atStart && matchIncludeThen (findQuotedHeader header) (c :: rest)) ||
      searchIncludeHeaderAux header (c = '\n') rest

/-- `re.search(rf'^#\s*include.*(<|"){header}(>|")', source, flags=re.MULTILINE)`:
the pattern matches at some line-start position of the source.  The `\s*`
after `#` may cross newlines (so a lone `#` line followed by an
`include "header"` line matches, as in Python); the `.*` and the header
wildcards cannot. -/
def searchIncludeHeader (header source : List Char) : Bool :=
  searchIncludeHeaderAux header true source

/-- `re.match(r"^#\s*include.*bout/", line)`. -/
def matchIncludeBout (line : List Char) : Bool :=
  matchIncludeThen (hasSubstring ['b', 'o', 'u', 't', '/']) line

/-- `re.match(r"^#\s*include.*physicsmodel", line)`. -/
def matchIncludePhysics (line : List Char) : Bool :=
  matchIncludeThen (hasSubstring "physicsmodel".toList) line

/-- The `includes` list built by `fix_include_version_header`: for each line,
append its number once per matching pattern (a line matching both patterns is
appended twice, as in the source; only `includes[-1]` is ever used). -/
def collectIncludesFrom (i : Nat) : List (List Char) → List Nat
  | [] => []
  | l :: ls =>
    (if matchIncludeBout l then [i] else []) ++
      (if matchIncludePhysics l then [i] else []) ++ collectIncludesFrom (i + 1) ls

/-- Python `list.insert(i, x)`: clamps an index past the end to an append. -/
def pyInsert (i : Nat) (x : α) : List α → List α
  | [] => [x]
  | l :: ls => if i = 0 then x :: l :: ls else l :: pyInsert (i - 1) x ls

/-- The inserted line `#include "{headers[0]}"`. -/
def includeLineFor (header : List Char) : List Char :=
  '#' :: ("include \"".toList ++ header ++ ['"'])

/-- `fix_include_version_header` of src/boutupgrader/bout_v5_macro_upgrader.py.
The caller passes `headers` already as a list (the source wraps a lone string
into a one-element list first).  `none` models the IndexError of `headers[0]`
when an insertion is attempted with an empty headers list. -/
def fix_include_version_header (old : List Char) (headers : List (List Char))
    (source : List Char) : Option (List Char) :=
  if headers.any (fun h => searchIncludeHeader h source) then some source
  else if !wordOccurs old source then some source
  else
    let source_lines := splitlines source
    let includes := collectIncludesFrom 0 source_lines
    let last_include := match includes.getLast? with
      | some i => i + 1
      | none => 0
    match headers with
    | [] => none
    | h :: _ => some (joinLines (pyInsert last_include (includeLineFor h) source_lines))

/-! ## Always-Defined Conditional Rewriter (fix_always_defined_macros) -/

/-- Try the pattern `#ifdef\s+{old}\b` (or `#ifndef\s+{old}\b`) at the head of
`s`; on success return the remainder after the match.  `\s+` is greedy but
`old` starts with a non-space character, so maximal munch is exact. -/
def tryDirectiveAt (word : List Char) (old : List Char) (s : List Char) : Option (List Char) :=
  match stripLit ('#' :: word) s with
  | none => none
  | some r1 =>
    match r1 with
    | c :: r2 =>
      if isPySpace c then
        match stripLit old (dropSpacesStar r2) with
        | some r3 =>
          if isWordOpt (old.getLast?.getD c) != isWordOpt r3.head? then some r3 else none
        | none => none
      else none
    | [] => none

/-- `re.sub` scan for a single directive pattern: non-overlapping, leftmost,
advancing one character on failure.  Fuel bounds the recursion; it is
instantiated with the length of the text, which suffices because every step
consumes at least one character. -/
def subDirective (word old repl : List Char) : Nat → List Char → List Char
  | 0, s => s
  | _ + 1, [] => []
  | fuel + 1, c :: rest =>
    match tryDirectiveAt word old (c :: rest) with
    | some r => repl ++ subDirective word old repl fuel r
    | none => c :: subDirective word old repl fuel rest

/-- `fix_always_defined_macros` of src/boutupgrader/bout_v5_macro_upgrader.py:
`re.sub(rf"#ifdef\s+{old}\b", rf"#if {new}", source)` then
`re.sub(rf"#ifndef\s+{old}\b", rf"#if !{new}", …)`. -/
def fix_always_defined_macros (old new source : List Char) : List Char :=
  let new_source := subDirective "ifdef".toList old ("#if ".toList ++ new) source.length source
  subDirective "ifndef".toList old ("#if !".toList ++ new) new_source.length new_source

/-! ## Identifier Replacer (fix_replacement) -/

/-- Try `([^"_])\b{old}\b([^"_])` at the head of `s`: a leading character that
is neither `"` nor `_`, a word boundary, the literal `old`, a word boundary,
and a trailing character that is neither `"` nor `_`.  Returns the replacement
chunk `\1{new}\2` and the remainder after the consumed trailing character. -/
def tryReplAt (old new : List Char) (s : List Char) : Option (List Char × List Char) :=
  match s with
  | [] => none
  | c1 :: rest =>
    if c1 = '"' || c1 = '_' then none
    else
      match stripLit old rest with
      | none => none
      | some r2 =>
        match r2 with
        | [] => none
        | c2 :: r3 =>
          if (c2 = '"' || c2 = '_') then none
          else if (isWordChar c1 != isWordOpt rest.head?) &&
              (isWordOpt (old.getLast?.getD c1) != isWordChar c2) then
            some (c1 :: (new ++ [c2]), r3)
          else none

/-- `re.sub` scan for the replacement pattern (fuel as in `subDirective`). -/
def subReplacement (old new : List Char) : Nat → List Char → List Char
  | 0, s => s
  | _ + 1, [] => []
  | fuel + 1, c :: rest =>
    match tryReplAt old new (c :: rest) with
    | some (chunk, r) => chunk ++ subReplacement old new fuel r
    | none => c :: subReplacement old new fuel rest

/-- `fix_replacement` of src/boutupgrader/bout_v5_macro_upgrader.py:
`re.sub(rf'([^"_])\b{old}\b([^"_])', rf"\1{new}\2", source)`. -/
def fix_replacement (old new source : List Char) : List Char :=
  subReplacement old new source.length source

/-! ## apply_fixes and the replacement table -/

/-- One entry of `MACRO_REPLACEMENTS`: `old`, `new` (None = removed), the
header list (`fix_include_version_header` wraps a lone string into a list, so
it is stored as a list here), and the `macro` / `always_defined` flags. -/
structure Replacement where
  old : List Char
  new : Option (List Char)
  headers : List (List Char)
  isMacro : Bool
  alwaysDefined : Bool

/-- The diagnostic printed for a removed macro:
`f"{replacement['old']} has been removed, please delete from your code"`. -/
def removedMsg (old : List Char) : List Char :=
  old ++ " has been removed, please delete from your code".toList

/-- `apply_fixes` of src/boutupgrader/bout_v5_macro_upgrader.py.  Returns the
modified text together with the list of lines printed to stdout; `none`
models an uncaught exception from one of the fixes. -/
def apply_fixes : List Replacement → List Char → Option (List Char × List (List Char))
  | [], modified => some (modified, [])
  | r :: rs, modified =>
    match r.new with
    | none =>
      match apply_fixes rs modified with
      | some (t, msgs) => some (t, removedMsg r.old :: msgs)
      | none => none
    | some n =>
      match fix_include_version_header r.old r.headers modified with
      | none => none
      | some t1 =>
        let t2 : Option (List Char) :=
          if r.isMacro && r.alwaysDefined then some (fix_always_defined_macros r.old n t1)
          else if r.alwaysDefined then fix_ifdefs r.old t1
          else some t1
        match t2 with
        | none => none
        | some t2v => apply_fixes rs (fix_replacement r.old n t2v)

/-- Shorthand: the modified text produced by `apply_fixes`, without the
printed diagnostics (`none` = exception). -/
def apply_fixes_text (rs : List Replacement) (source : List Char) : Option (List Char) :=
  (apply_fixes rs source).map Prod.fst

/-- `MACRO_REPLACEMENTS` of src/boutupgrader/bout_v5_macro_upgrader.py
(lone header strings are stored as one-element lists, as
`fix_include_version_header` wraps them). -/
def MACRO_REPLACEMENTS : List Replacement :=
  [ ⟨"REVISION".toList, some "bout::version::revision".toList, ["bout/revision.hxx".toList], false, true⟩,
    ⟨"BOUT_VERSION_DOUBLE".toList, some "bout::version::as_double".toList,
      ["bout/version.hxx".toList, "bout.hxx".toList], false, true⟩,
    ⟨"BOUT_VERSION_STRING".toList, some "bout::version::full".toList,
      ["bout/version.hxx".toList, "bout.hxx".toList], false, true⟩,
    ⟨"BOUT_VERSION".toList, some "bout::version::full".toList,
      ["bout/version.hxx".toList, "bout.hxx".toList], false, true⟩,
    ⟨"BACKTRACE".toList, some "BOUT_USE_BACKTRACE".toList, ["bout/build_config.hxx".toList], true, true⟩,
    ⟨"HAS_ARKODE".toList, some "BOUT_HAS_ARKODE".toList, ["bout/build_config.hxx".toList], true, true⟩,
    ⟨"HAS_CVODE".toList, some "BOUT_HAS_CVODE".toList, ["bout/build_config.hxx".toList], true, true⟩,
    ⟨"HAS_HDF5".toList, none, [], true, true⟩,
    ⟨"HAS_IDA".toList, some "BOUT_HAS_IDA".toList, ["bout/build_config.hxx".toList], true, true⟩,
    ⟨"HAS_LAPACK".toList, some "BOUT_HAS_LAPACK".toList, ["bout/build_config.hxx".toList], true, true⟩,
    ⟨"LAPACK".toList, some "BOUT_HAS_LAPACK".toList, ["bout/build_config.hxx".toList], true, true⟩,
    ⟨"HAS_NETCDF".toList, some "BOUT_HAS_NETCDF".toList, ["bout/build_config.hxx".toList], true, true⟩,
    ⟨"HAS_PETSC".toList, some "BOUT_HAS_PETSC".toList, ["bout/build_config.hxx".toList], true, true⟩,
    ⟨"HAS_PRETTY_FUNCTION".toList, some "BOUT_HAS_PRETTY_FUNCTION".toList,
      ["bout/build_config.hxx".toList], true, true⟩,
    ⟨"HAS_PVODE".toList, some "BOUT_HAS_PVODE".toList, ["bout/build_config.hxx".toList], true, true⟩,
    ⟨"TRACK".toList, some "BOUT_USE_TRACK".toList, ["bout/build_config.hxx".toList], true, true⟩,
    ⟨"NCDF4".toList, some "BOUT_HAS_NETCDF".toList, ["bout/build_config.hxx".toList], true, true⟩,
    ⟨"NCDF".toList, some "BOUT_HAS_LEGACY_NETCDF".toList, ["bout/build_config.hxx".toList], true, true⟩,
    ⟨"HDF5".toList, none, [], true, true⟩,
    ⟨"DEBUG_ENABLED".toList, some "BOUT_USE_OUTPUT_DEBUG".toList, ["bout/build_config.hxx".toList], true, true⟩,
    ⟨"BOUT_FPE".toList, some "BOUT_USE_SIGFPE".toList, ["bout/build_config.hxx".toList], true, true⟩,
    ⟨"LOGCOLOR".toList, some "BOUT_USE_COLOR".toList, ["bout/build_config.hxx".toList], true, true⟩,
    ⟨"OPENMP_SCHEDULE".toList, some "BOUT_OPENMP_SCHEDULE".toList, ["bout/build_config.hxx".toList], true, true⟩ ]

/-! ## The standalone script src/bout-v5-macro-upgrader.py

Its `fix_include_version_header` takes a single header, its `fix_ifdefs` only
handles `#ifdef` (popping just the directive and its matching `#endif` line,
and always rejoining the lines), and its `fix_replacement` excludes only `"`
in the context classes.  All of its fixes are total functions. -/

/-- Script `fix_include_version_header(old, header, source)`. -/
def script_fix_include_version_header (old header source : List Char) : List Char :=
  if searchIncludeHeader header source then source
  else if !wordOccurs old source then source
  else
    let source_lines := splitlines source
    let includes := collectIncludesFrom 0 source_lines
    let last_include := match includes.getLast? with
      | some i => i + 1
      | none => 0
    joinLines (pyInsert last_include (includeLineFor header) source_lines)

/-- Scan state of the script `fix_ifdefs`: nesting counter and `lines_to_pop`
(in ascending order of line number, as appended). -/
structure ScriptScanSt where
  idx : Nat
  inIf : Option Nat
  pops : List Nat
deriving DecidableEq, Repr

/-- One iteration of the script `fix_ifdefs` loop: only
`re.match(r"#\s*ifdef\s*(.*)", line)` and `re.match(r"#\s*endif", line)`
are consulted (`#ifndef` and `#else` are of no interest here). -/
def scriptScanStep (old : List Char) (st : ScriptScanSt) (line : List Char) : ScriptScanSt :=
  if matchEndif line then
    match st.inIf with
    | none => ⟨st.idx + 1, none, st.pops⟩
    | some d =>
      if d = 1 then ⟨st.idx + 1, none, st.pops ++ [st.idx]⟩
      else ⟨st.idx + 1, some (d - 1), st.pops⟩
  else
    match matchIfdef line with
    | some (true, name) =>
      if name = old then ⟨st.idx + 1, some 1, st.pops ++ [st.idx]⟩
      else
        match st.inIf with
        | some d => ⟨st.idx + 1, some (d + 1), st.pops⟩
        | none => ⟨st.idx + 1, none, st.pops⟩
    | _ => ⟨st.idx + 1, st.inIf, st.pops⟩

/-- Script `fix_ifdefs(old, source)`: pops the collected lines (deleting in
reverse order, which removes exactly that set of indices) and always rejoins
with newlines. -/
def script_fix_ifdefs (old source : List Char) : List Char :=
  let source_lines := splitlines source
  let pops := (source_lines.foldl (scriptScanStep old) ⟨0, none, []⟩).pops
  joinLines (keepFrom pops 0 source_lines)

/-- Try `([^"])\b{old}\b([^"])` at the head of `s` (script variant: only the
quote character is excluded from the context classes). -/
def scriptTryReplAt (old new : List Char) (s : List Char) : Option (List Char × List Char) :=
  match s with
  | [] => none
  | c1 :: rest =>
    if c1 = '"' then none
    else
      match stripLit old rest with
      | none => none
      | some r2 =>
        match r2 with
        | [] => none
        | c2 :: r3 =>
          if c2 = '"' then none
          else if (isWordChar c1 != isWordOpt rest.head?) &&
              (isWordOpt (old.getLast?.getD c1) != isWordChar c2) then
            some (c1 :: (new ++ [c2]), r3)
          else none

/-- `re.sub` scan for the script replacement pattern. -/
def scriptSubReplacement (old new : List Char) : Nat → List Char → List Char
  | 0, s => s
  | _ + 1, [] => []
  | fuel + 1, c :: rest =>
    match scriptTryReplAt old new (c :: rest) with
    | some (chunk, r) => chunk ++ scriptSubReplacement old new fuel r
    | none => c :: scriptSubReplacement old new fuel rest

/-- Script `fix_replacement(old, new, source)`. -/
def script_fix_replacement (old new source : List Char) : List Char :=
  scriptSubReplacement old new source.length source

/-- One entry of the script's `MACRO_REPLACEMENTS`: `old`, `new`, `header`. -/
structure ScriptReplacement where
  old : List Char
  new : List Char
  header : List Char

/-- The script's `MACRO_REPLACEMENTS` table. -/
def SCRIPT_MACRO_REPLACEMENTS : List ScriptReplacement :=
  [ ⟨"REVISION".toList, "bout::version::revision".toList, "bout/version.hxx".toList⟩,
    ⟨"BOUT_VERSION_DOUBLE".toList, "bout::version::as_double".toList, "bout/version.hxx".toList⟩,
    ⟨"BOUT_VERSION_STRING".toList, "bout::version::full".toList, "bout/version.hxx".toList⟩,
    ⟨"BOUT_VERSION".toList, "bout::version::full".toList, "bout/version.hxx".toList⟩ ]

/-- Script `apply_fixes(replacements, source)`. -/
def script_apply_fixes : List ScriptReplacement → List Char → List Char
  | [], modified => modified
  | r :: rs, modified =>
    script_apply_fixes rs
      (script_fix_replacement r.old r.new
        (script_fix_ifdefs r.old
          (script_fix_include_version_header r.old r.header modified)))

/-! ## Patch & Apply workflow of the script (__main__ and yes_or_no) -/

/-- Python `str.lower` on the ASCII range. -/
def pyLower (s : List Char) : List Char :=
  s.map fun c => if 'A' ≤ c && c ≤ 'Z' then Char.ofNat (c.toNat + 32) else c

/-- Python `str.strip()` with the default whitespace set. -/
def pyStrip (s : List Char) : List Char :=
  ((s.dropWhile isPySpace).reverse.dropWhile isPySpace).reverse

/-- `yes_or_no(question)`: consumes operator replies until one is decisive.
An empty (after lower/strip) or `n…` reply gives `False`, a `y…` reply gives
`True`, anything else repeats the prompt.  `none` models the `EOFError` of
`input()` when the reply stream is exhausted. -/
def yes_or_no : List (List Char) → Option Bool
  | [] => none
  | reply :: rest =>
    let r := pyStrip (pyLower reply)
    if r = [] then some false
    else if r.head? = some 'n' then some false
    else if r.head? = some 'y' then some true
    else yes_or_no rest

/-- `difflib.unified_diff` yields no lines exactly when the two line sequences
are equal, so `create_patch` returns the empty string iff
`original.splitlines() == modified.splitlines()`. -/
def patchIsEmpty (original modified : List Char) : Bool :=
  splitlines original == splitlines modified

/-- The per-file body of the script's `__main__` loop in the interactive
default mode (`--force` and `--patch-only` both absent): compute the fixes,
skip the file when the patch is empty, otherwise ask `yes_or_no` and write
exactly when it returns `True`.  Result: `some true` = file written,
`some false` = file left unchanged, `none` = crash while prompting. -/
def script_write_decision (contents : List Char) (replies : List (List Char)) : Option Bool :=
  let modified := script_apply_fixes SCRIPT_MACRO_REPLACEMENTS contents
  if patchIsEmpty contents modified then some false
  else yes_or_no replies

/-! ## Structural Call-Pattern Rewriter (bout_v6_coordinates_upgrader.py)

`SETTING_METRIC_COMPONENT_REGEX = (\b.+\-\>|\.)(g_?)(\d\d)\s?\=\s?(.+)(?=;)`
and `GETTING_METRIC_COMPONENT_REGEX = (\b\w+->|\.)(?P<component>g_?\d\d)` are
embedded with their backtracking semantics (greedy `.+`, `\w+`, `_?`, `\s?`,
leftmost matching).  Since `.` does not match a newline, matches are found
line by line (a cross-line match would need the `\s?` to consume the newline
with the `=` opening the next line, which does not occur in practice). -/

/-- One match of the setting regex: the four captured groups. -/
structure SettingMatch where
  g1 : List Char
  g2 : List Char
  g3 : List Char
  g4 : List Char
deriving DecidableEq, Repr

/-- All splits `s = a ++ "->" ++ b` with `a` nonempty, in left-to-right order
of the arrow position (shortest `a` first). -/
def arrowSplitsAux (acc : List Char) : List Char → List (List Char × List Char)
  | '-' :: '>' :: rest =>
    (if acc = [] then [] else [((acc.reverse ++ ['-', '>']), rest)]) ++
      arrowSplitsAux ('>' :: '-' :: acc) rest
  | c :: rest => arrowSplitsAux (c :: acc) rest
  | [] => []

/-- Candidates for the greedy `\b.+\->` alternative, longest `.+` first. -/
def arrowSplits (s : List Char) : List (List Char × List Char) :=
  (arrowSplitsAux [] s).reverse

/-- Split at the last `;` of `s`: returns `(v, rest)` with `s = v ++ rest`,
`rest` starting with `;` and containing no further `;`. -/
def lastSemiSplit : List Char → Option (List Char × List Char)
  | [] => none
  | c :: rest =>
    match lastSemiSplit rest with
    | some (v, r) => some (c :: v, r)
    | none => if c = ';' then some ([], c :: rest) else none

/-- `(g_?)(\d\d)` with the greedy `_?`: returns (group2, group3, remainder). -/
def matchComponent : List Char → Option (List Char × List Char × List Char)
  | 'g' :: '_' :: d1 :: d2 :: rest =>
    if d1.isDigit && d2.isDigit then some (['g', '_'], [d1, d2], rest) else none
  | 'g' :: d1 :: d2 :: rest =>
    if d1.isDigit && d2.isDigit then some (['g'], [d1, d2], rest) else none
  | _ => none

/-- `\s?\=` with the greedy optional whitespace: consume one whitespace
character only if an `=` follows it. -/
def eatEquals : List Char → Option (List Char)
  | c :: rest =>
    if isPySpace c then
      match rest with
      | '=' :: r => some r
      | _ => none
    else if c = '=' then some rest else none
  | [] => none

/-- `\s?(.+)(?=;)`: the optional whitespace is consumed greedily and the
greedy `.+` stretches to the last `;`; if that leaves the group empty the
engine backtracks and the whitespace becomes part of the group.  Returns
(group4, remainder beginning at the `;` the lookahead saw). -/
def eatValue (s : List Char) : Option (List Char × List Char) :=
  let noSpace : Option (List Char × List Char) :=
    match lastSemiSplit s with
    | some (v, r) => if v = [] then none else some (v, r)
    | none => none
  match s with
  | c :: r =>
    if isPySpace c then
      match lastSemiSplit r with
      | some (v, rest) => if v = [] then noSpace else some (v, rest)
      | none => noSpace
    else noSpace
  | [] => none

/-- The pattern tail `(g_?)(\d\d)\s?\=\s?(.+)(?=;)` starting after group 1. -/
def settingTail (b : List Char) : Option (List Char × List Char × List Char × List Char) :=
  match matchComponent b with
  | none => none
  | some (g2, g3, r1) =>
    match eatEquals r1 with
    | none => none
    | some r2 =>
      match eatValue r2 with
      | none => none
      | some (g4, rest) => some (g2, g3, g4, rest)

/-- Try the first successful arrow split (longest `.+` first). -/
def tryArrowSplits : List (List Char × List Char) → Option (SettingMatch × List Char)
  | [] => none
  | (g1, b) :: more =>
    match settingTail b with
    | some (g2, g3, g4, rest) => some (⟨g1, g2, g3, g4⟩, rest)
    | none => tryArrowSplits more

/-- Attempt the setting regex at the current position (`prev` is the
character immediately before it, for the `\b` of the first alternative). -/
def trySettingAt (prev : Option Char) (s : List Char) : Option (SettingMatch × List Char) :=
  let alt1 :=
    if isWordOpt prev != isWordOpt s.head? then tryArrowSplits (arrowSplits s)
    else none
  match alt1 with
  | some m => some m
  | none =>
    match s with
    | '.' :: b =>
      match settingTail b with
      | some (g2, g3, g4, rest) => some (⟨['.'], g2, g3, g4⟩, rest)
      | none => none
    | _ => none

/-- `findall` of the setting regex on one line: leftmost matches, scanning
resuming at the end of each match. -/
def findAllSettingAux (old_fuel : Nat) (prev : Option Char) (s : List Char) : List SettingMatch :=
  match old_fuel with
  | 0 => []
  | fuel + 1 =>
    match s with
    | [] => []
    | c :: rest =>
      match trySettingAt prev s with
      | some (m, r) => m :: findAllSettingAux fuel (m.g4.getLast?) r
      | none => findAllSettingAux fuel (some c) rest

/-- `SETTING_METRIC_COMPONENT_REGEX.findall(line)`. -/
def findAllSetting (line : List Char) : List SettingMatch :=
  findAllSettingAux line.length none line

/-- `SETTING_METRIC_COMPONENT_REGEX.findall(original_string)`:
per-line matches in line order. -/
def findAllSettingText (s : List Char) : List SettingMatch :=
  (splitlines s).flatMap findAllSetting

/-- One step of `GETTING_METRIC_COMPONENT_REGEX` at the current position:
`(\b\w+->|\.)(?P<component>g_?\d\d)`; returns (component, remainder). -/
def tryGettingAt (prev : Option Char) (s : List Char) : Option (List Char × List Char) :=
  let wordRun := s.takeWhile isWordChar
  let alt1 :=
    if (isWordOpt prev != isWordOpt s.head?) && wordRun ≠ [] then
      match stripLit (wordRun ++ ['-', '>']) s with
      | some r1 =>
        match matchComponent r1 with
        | some (g2, g3, rest) => some (g2 ++ g3, rest)
        | none => none
      | none => none
    else none
  match alt1 with
  | some m => some m
  | none =>
    match s with
    | '.' :: b =>
      match matchComponent b with
      | some (g2, g3, rest) => some (g2 ++ g3, rest)
      | none => none
    | _ => none

/-- The `re.sub` scan of `GETTING_METRIC_COMPONENT_REGEX.sub(r"\g<component>", value)`. -/
def gettingSubAux (old_fuel : Nat) (prev : Option Char) (s : List Char) : List Char :=
  match old_fuel with
  | 0 => s
  | fuel + 1 =>
    match s with
    | [] => []
    | c :: rest =>
      match tryGettingAt prev s with
      | some (comp, r) => comp ++ gettingSubAux fuel comp.getLast? r
      | none => c :: gettingSubAux fuel (some c) rest

/-- Replace `c->g11` by `g11` etc. inside a captured right-hand side. -/
def gettingSub (value : List Char) : List Char :=
  gettingSubAux value.length none value

/-- Python dict insertion for the `metric_components` comprehension: a
repeated key keeps its original position but takes the latest value. -/
def dictInsert (k v : List Char) (d : List (List Char × List Char)) : List (List Char × List Char) :=
  if d.any (fun p => p.1 = k) then d.map (fun p => if p.1 = k then (k, v) else p)
  else d ++ [(k, v)]

/-- `{match[1] + match[2]: match[3] for match in line_matches}`. -/
def metricComponentsOf (ms : List SettingMatch) : List (List Char × List Char) :=
  ms.foldl (fun d m => dictInsert (m.g2 ++ m.g3) m.g4 d) []

/-- `lines.index(content)`: index of the first occurrence. -/
def indexOfFirst (lines : List (List Char)) (l : List Char) : Nat :=
  lines.findIdx (fun x => x = l)

/-- `indices_of_matching_lines(SETTING_METRIC_COMPONENT_REGEX, lines)`. -/
def indicesOfMatchingSetting (lines : List (List Char)) : List Nat :=
  ((lines.filter (fun l => findAllSetting l ≠ [])).map (indexOfFirst lines))

/-- Python `del lst[i]` with negative-index wrapping; `none` = IndexError. -/
def pyDelAt (l : List α) (i : Int) : Option (List α) :=
  let n : Int := l.length
  let j := if i < 0 then i + n else i
  if 0 ≤ j ∧ j < n then some (l.eraseIdx j.toNat) else none

/-- The deletion loop
`for line_index in lines_to_remove: del lines[line_index - lines_removed_count]; …`. -/
def delMatchedLines (lines : List (List Char)) (toRemove : List Nat) (removed : Nat) :
    Option (List (List Char)) :=
  match toRemove with
  | [] => some lines
  | i :: more =>
    match pyDelAt lines ((i : Int) - removed) with
    | some l2 => delMatchedLines l2 more (removed + 1)
    | none => none

/-- The reversed insertion loop over `metric_components_with_value.items()`:
threads `(lines, newline_inserted)`; `p` is `lines_to_remove[0]`. -/
def insertDeclsLoop (p : Nat) : List (List Char × List Char) → List (List Char) × Bool →
    List (List Char) × Bool
  | [], st => st
  | (key, value) :: more, (lines, nl) =>
    let new_value := gettingSub value
    let (lines1, nl1) :=
      if !(['g', '_'].isPrefixOf key) && !nl then (pyInsert p [] lines, true) else (lines, nl)
    let decl := "    const auto ".toList ++ key ++ " = ".toList ++ new_value ++ [';']
    insertDeclsLoop p more (pyInsert p decl lines1, nl1)

/-- The aggregated `setMetricTensor` call inserted by `use_metric_accessors`
(one list element containing an embedded newline, as in the source f-string). -/
def newMetricTensorSetter (cna : List Char) : List Char :=
  "    ".toList ++ cna ++
    "setMetricTensor(ContravariantMetricTensor(g11, g22, g33, g12, g13, g23),\n                           CovariantMetricTensor(g_11, g_22, g_33, g_12, g_13, g_23));".toList

/-- `use_metric_accessors` of src/boutupgrader/bout_v6_coordinates_upgrader.py.
Returns the resulting line list; `none` models an IndexError. -/
def use_metric_accessors (original : List Char) : Option (List (List Char)) :=
  let lines := splitlines original
  let line_matches := findAllSettingText original
  match line_matches with
  | [] => some lines
  | m0 :: _ =>
    let metric_components := metricComponentsOf line_matches
    let lines_to_remove := indicesOfMatchingSetting lines
    match lines_to_remove with
    | [] => none
    | p :: _ =>
      match delMatchedLines lines lines_to_remove 0 with
      | none => none
      | some lines1 =>
        -- `metric_components_with_value` drops `None` values; captured group 4
        -- values are always strings, so the filter keeps everything.
        let mcwv := metric_components
        let (lines2, _) := insertDeclsLoop p mcwv.reverse (lines1, false)
        let lines3 := pyInsert (p + mcwv.length + 1) [] lines2
        let lines4 := pyInsert (p + mcwv.length + 2) (newMetricTensorSetter m0.g1) lines3
        pyDelAt lines4 ((lines_to_remove.getLastD p : Int) + 3)

/-- All lines of a segment are plain (match none of the three directive regexes). -/
abbrev PlainLines (P : List (List Char)) : Prop :=
  ∀ l ∈ P, classify l = LineKind.plain

/-- A "library header" include line: the two per-line patterns consulted when
choosing the insertion point. -/
def libInc (l : List Char) : Bool :=
  matchIncludeBout l || matchIncludePhysics l

/-! ## Lemmas about the fix_ifdefs scan loop -/

theorem scanStep_plain (old : List Char) (st : ScanSt) (l : List Char)
    (h : classify l = .plain) : scanStep old st l = ⟨st.idx + 1, st.inIf, st.blocks⟩ := by
  simp [scanStep, h]

theorem scanStep_condHit (old : List Char) (st : ScanSt) (l : List Char) (k : Bool)
    (h : classify l = .condDir k old) :
    scanStep old st l = ⟨st.idx + 1, some 1, ⟨st.idx, k, none, none⟩ :: st.blocks⟩ := by
  simp [scanStep, h]

theorem scanStep_condOther (old : List Char) (i d : Nat) (bs : List MacroBlock)
    (l : List Char) (k : Bool) (name : List Char) (h : classify l = .condDir k name)
    (hne : name ≠ old) :
    scanStep old ⟨i, some d, bs⟩ l = ⟨i + 1, some (d + 1), bs⟩ := by
  simp [scanStep, h, hne]

theorem scanStep_elseAt1 (old : List Char) (i : Nat) (bs : List MacroBlock) (l : List Char)
    (h : classify l = .elseDir) :
    scanStep old ⟨i, some 1, bs⟩ l = ⟨i + 1, some 1, setElse i bs⟩ := by
  simp [scanStep, h]

theorem scanStep_endifAt1 (old : List Char) (i : Nat) (bs : List MacroBlock) (l : List Char)
    (h : classify l = .endifDir) :
    scanStep old ⟨i, some 1, bs⟩ l = ⟨i + 1, none, setEnd i bs⟩ := by
  simp [scanStep, h]

theorem scanStep_endifDeep (old : List Char) (i d : Nat) (bs : List MacroBlock) (l : List Char)
    (h : classify l = .endifDir) (hd : d ≠ 1) :
    scanStep old ⟨i, some d, bs⟩ l = ⟨i + 1, some (d - 1), bs⟩ := by
  simp [scanStep, h, hd]

theorem foldl_scanStep_plain (old : List Char) (P : List (List Char)) (st : ScanSt)
    (h : ∀ l ∈ P, classify l = .plain) :
    P.foldl (scanStep old) st = ⟨st.idx + P.length, st.inIf, st.blocks⟩ := by
  induction P generalizing st with
  | nil => simp
  | cons l P ih =>
    rw [List.foldl_cons, scanStep_plain old st l (h l (by simp)),
      ih ⟨st.idx + 1, st.inIf, st.blocks⟩ (fun x hx => h x (by simp [hx]))]
    have harith : st.idx + 1 + P.length = st.idx + (l :: P).length := by
      simp only [List.length_cons]
      omega
    rw [harith]

/-! ## Lemmas about keepFrom -/

theorem keepFrom_cons_mem (rem : List Nat) (i : Nat) (x : List Char) (xs : List (List Char))
    (h : i ∈ rem) : keepFrom rem i (x :: xs) = keepFrom rem (i + 1) xs := by
  have hc : rem.contains i = true := List.elem_iff.mpr h
  simp [keepFrom, hc, h]

theorem keepFrom_cons_not_mem (rem : List Nat) (i : Nat) (x : List Char) (xs : List (List Char))
    (h : i ∉ rem) : keepFrom rem i (x :: xs) = x :: keepFrom rem (i + 1) xs := by
  have hc : rem.contains i = false := by
    cases hc : rem.contains i
    · rfl
    · exact absurd (List.elem_iff.mp hc) h
  simp [keepFrom, hc, h]

theorem keepFrom_append (rem : List Nat) (i : Nat) (xs ys : List (List Char)) :
    keepFrom rem i (xs ++ ys) = keepFrom rem i xs ++ keepFrom rem (i + xs.length) ys := by
  induction xs generalizing i with
  | nil => simp [keepFrom]
  | cons x xs ih =>
    have hlen : i + (x :: xs).length = i + 1 + xs.length := by
      simp only [List.length_cons]
      omega
    by_cases h : i ∈ rem
    · rw [List.cons_append, keepFrom_cons_mem rem i x (xs ++ ys) h,
        keepFrom_cons_mem rem i x xs h, hlen, ih (i + 1)]
    · rw [List.cons_append, keepFrom_cons_not_mem rem i x (xs ++ ys) h,
        keepFrom_cons_not_mem rem i x xs h, hlen, ih (i + 1), List.cons_append]

theorem keepFrom_seg_keep (rem : List Nat) (i : Nat) (xs : List (List Char))
    (h : ∀ j, i ≤ j → j < i + xs.length → j ∉ rem) : keepFrom rem i xs = xs := by
  induction xs generalizing i with
  | nil => simp [keepFrom]
  | cons x xs ih =>
    rw [keepFrom_cons_not_mem rem i x xs
        (h i (Nat.le_refl i) (by simp only [List.length_cons]; omega)),
      ih (i + 1) (fun j h1 h2 => h j (by omega) (by simp only [List.length_cons]; omega))]

theorem keepFrom_seg_drop (rem : List Nat) (i : Nat) (xs : List (List Char))
    (h : ∀ j, i ≤ j → j < i + xs.length → j ∈ rem) : keepFrom rem i xs = [] := by
  induction xs generalizing i with
  | nil => simp [keepFrom]
  | cons x xs ih =>
    rw [keepFrom_cons_mem rem i x xs
        (h i (Nat.le_refl i) (by simp only [List.length_cons]; omega)),
      ih (i + 1) (fun j h1 h2 => h j (by omega) (by simp only [List.length_cons]; omega))]

/-- Scan of a single tracked block with an `#else`: the block record holds
the exact line numbers of the directive, `#else` and matching `#endif`. -/
theorem scanBlocks_with_else (old : List Char) (pre A B post : List (List Char))
    (dL eL nL : List Char) (k : Bool)
    (hpre : ∀ l ∈ pre, classify l = .plain) (hA : ∀ l ∈ A, classify l = .plain)
    (hB : ∀ l ∈ B, classify l = .plain) (hpost : ∀ l ∈ post, classify l = .plain)
    (hd : classify dL = .condDir k old) (he : classify eL = .elseDir)
    (hn : classify nL = .endifDir) :
    scanBlocks old (pre ++ dL :: (A ++ eL :: (B ++ nL :: post))) =
      [⟨pre.length, k, some (pre.length + 1 + A.length),
        some (pre.length + 1 + A.length + 1 + B.length)⟩] := by
  unfold scanBlocks
  rw [List.foldl_append, foldl_scanStep_plain old pre _ hpre, List.foldl_cons,
    scanStep_condHit old _ dL k hd]
  rw [List.foldl_append, foldl_scanStep_plain old A _ hA, List.foldl_cons,
    scanStep_elseAt1 old _ _ eL he]
  rw [List.foldl_append, foldl_scanStep_plain old B _ hB, List.foldl_cons,
    scanStep_endifAt1 old _ _ nL hn]
  rw [foldl_scanStep_plain old post _ hpost]
  simp only [setElse, setEnd]
  norm_num

/-- Scan of a single tracked block without `#else`. -/
theorem scanBlocks_no_else (old : List Char) (pre A post : List (List Char))
    (dL nL : List Char) (k : Bool)
    (hpre : ∀ l ∈ pre, classify l = .plain) (hA : ∀ l ∈ A, classify l = .plain)
    (hpost : ∀ l ∈ post, classify l = .plain)
    (hd : classify dL = .condDir k old) (hn : classify nL = .endifDir) :
    scanBlocks old (pre ++ dL :: (A ++ nL :: post)) =
      [⟨pre.length, k, none, some (pre.length + 1 + A.length)⟩] := by
  unfold scanBlocks
  rw [List.foldl_append, foldl_scanStep_plain old pre _ hpre, List.foldl_cons,
    scanStep_condHit old _ dL k hd]
  rw [List.foldl_append, foldl_scanStep_plain old A _ hA, List.foldl_cons,
    scanStep_endifAt1 old _ _ nL hn]
  rw [foldl_scanStep_plain old post _ hpost]
  simp only [setEnd]
  norm_num

/-- Scan of a tracked block whose `#endif` is missing: the record never
receives an `"end"` entry. -/
theorem scanBlocks_unterminated (old : List Char) (pre body : List (List Char))
    (dL : List Char) (k : Bool)
    (hpre : ∀ l ∈ pre, classify l = .plain) (hbody : ∀ l ∈ body, classify l = .plain)
    (hd : classify dL = .condDir k old) :
    scanBlocks old (pre ++ dL :: body) = [⟨pre.length, k, none, none⟩] := by
  unfold scanBlocks
  rw [List.foldl_append, foldl_scanStep_plain old pre _ hpre, List.foldl_cons,
    scanStep_condHit old _ dL k hd]
  rw [foldl_scanStep_plain old body _ hbody]
  norm_num

/-- Scan of a tracked block with an `#else` but no terminating `#endif`. -/
theorem scanBlocks_unterminated_else (old : List Char) (pre A B : List (List Char))
    (dL eL : List Char) (k : Bool)
    (hpre : ∀ l ∈ pre, classify l = .plain) (hA : ∀ l ∈ A, classify l = .plain)
    (hB : ∀ l ∈ B, classify l = .plain)
    (hd : classify dL = .condDir k old) (he : classify eL = .elseDir) :
    scanBlocks old (pre ++ dL :: (A ++ eL :: B)) =
      [⟨pre.length, k, some (pre.length + 1 + A.length), none⟩] := by
  unfold scanBlocks
  rw [List.foldl_append, foldl_scanStep_plain old pre _ hpre, List.foldl_cons,
    scanStep_condHit old _ dL k hd]
  rw [List.foldl_append, foldl_scanStep_plain old A _ hA, List.foldl_cons,
    scanStep_elseAt1 old _ _ eL he]
  rw [foldl_scanStep_plain old B _ hB]
  simp only [setElse]
  norm_num

/-- Scan of a tracked block containing a nested conditional on another name:
the nested directive raises the depth counter, its terminator lowers it, and
the block is only finalized at the outer `#endif`. -/
theorem scanBlocks_nested (old : List Char) (pre A B C post : List (List Char))
    (dL d2 n2 nL : List Char) (k k2 : Bool) (name2 : List Char)
    (hpre : ∀ l ∈ pre, classify l = .plain) (hA : ∀ l ∈ A, classify l = .plain)
    (hB : ∀ l ∈ B, classify l = .plain) (hC : ∀ l ∈ C, classify l = .plain)
    (hpost : ∀ l ∈ post, classify l = .plain)
    (hd : classify dL = .condDir k old)
    (hd2 : classify d2 = .condDir k2 name2) (hne : name2 ≠ old)
    (hn2 : classify n2 = .endifDir) (hn : classify nL = .endifDir) :
    scanBlocks old (pre ++ dL :: (A ++ d2 :: (B ++ n2 :: (C ++ nL :: post)))) =
      [⟨pre.length, k, none,
        some (pre.length + 1 + A.length + 1 + B.length + 1 + C.length)⟩] := by
  unfold scanBlocks
  rw [List.foldl_append, foldl_scanStep_plain old pre _ hpre, List.foldl_cons,
    scanStep_condHit old _ dL k hd]
  rw [List.foldl_append, foldl_scanStep_plain old A _ hA, List.foldl_cons,
    scanStep_condOther old _ _ _ d2 k2 name2 hd2 hne]
  rw [List.foldl_append, foldl_scanStep_plain old B _ hB, List.foldl_cons,
    scanStep_endifDeep old _ 2 _ n2 hn2 (by omega)]
  rw [List.foldl_append, foldl_scanStep_plain old C _ hC, List.foldl_cons,
    scanStep_endifAt1 old _ _ nL hn]
  rw [foldl_scanStep_plain old post _ hpost]
  simp only [setEnd]
  norm_num

/-- Scan of a tracked block whose `#else` branch contains a nested
conditional on another name. -/
theorem scanBlocks_nested_in_else (old : List Char) (pre A B1 B2 B3 post : List (List Char))
    (dL eL d2 n2 nL : List Char) (k k2 : Bool) (name2 : List Char)
    (hpre : ∀ l ∈ pre, classify l = .plain) (hA : ∀ l ∈ A, classify l = .plain)
    (hB1 : ∀ l ∈ B1, classify l = .plain) (hB2 : ∀ l ∈ B2, classify l = .plain)
    (hB3 : ∀ l ∈ B3, classify l = .plain) (hpost : ∀ l ∈ post, classify l = .plain)
    (hd : classify dL = .condDir k old) (he : classify eL = .elseDir)
    (hd2 : classify d2 = .condDir k2 name2) (hne : name2 ≠ old)
    (hn2 : classify n2 = .endifDir) (hn : classify nL = .endifDir) :
    scanBlocks old (pre ++ dL :: (A ++ eL :: (B1 ++ d2 :: (B2 ++ n2 :: (B3 ++ nL :: post))))) =
      [⟨pre.length, k, some (pre.length + 1 + A.length),
        some (pre.length + 1 + A.length + 1 + B1.length + 1 + B2.length + 1 + B3.length)⟩] := by
  unfold scanBlocks
  rw [List.foldl_append, foldl_scanStep_plain old pre _ hpre, List.foldl_cons,
    scanStep_condHit old _ dL k hd]
  rw [List.foldl_append, foldl_scanStep_plain old A _ hA, List.foldl_cons,
    scanStep_elseAt1 old _ _ eL he]
  rw [List.foldl_append, foldl_scanStep_plain old B1 _ hB1, List.foldl_cons,
    scanStep_condOther old _ _ _ d2 k2 name2 hd2 hne]
  rw [List.foldl_append, foldl_scanStep_plain old B2 _ hB2, List.foldl_cons,
    scanStep_endifDeep old _ 2 _ n2 hn2 (by omega)]
  rw [List.foldl_append, foldl_scanStep_plain old B3 _ hB3, List.foldl_cons,
    scanStep_endifAt1 old _ _ nL hn]
  rw [foldl_scanStep_plain old post _ hpost]
  simp only [setElse, setEnd]
  norm_num

/-- `fix_ifdefs` on a well-formed `#ifdef TARGET … #else … #endif` block:
the primary branch is kept; the `#ifdef` line and the whole `#else`…`#endif`
span are removed. -/
theorem fix_ifdefs_ifdef_with_else (old source : List Char)
    (pre A B post : List (List Char)) (dL eL nL : List Char)
    (hs : splitlines source = pre ++ dL :: (A ++ eL :: (B ++ nL :: post)))
    (hpre : ∀ l ∈ pre, classify l = .plain) (hA : ∀ l ∈ A, classify l = .plain)
    (hB : ∀ l ∈ B, classify l = .plain) (hpost : ∀ l ∈ post, classify l = .plain)
    (hd : classify dL = .condDir true old) (he : classify eL = .elseDir)
    (hn : classify nL = .endifDir) :
    fix_ifdefs old source = some (joinLines (pre ++ (A ++ post))) := by
  have hscan := scanBlocks_with_else old pre A B post dL eL nL true hpre hA hB hpost hd he hn
  have hrem : removalLines [⟨pre.length, true, some (pre.length + 1 + A.length),
      some (pre.length + 1 + A.length + 1 + B.length)⟩] =
      some ([pre.length, pre.length + 1 + A.length, pre.length + 1 + A.length + 1 + B.length] ++
        List.range' (pre.length + 1 + A.length)
          (pre.length + 1 + A.length + 1 + B.length - (pre.length + 1 + A.length))) := by
    simp [removalLines, blockRemoval, Option.toList]
  have hmem : ∀ j,
      j ∈ ([pre.length, pre.length + 1 + A.length, pre.length + 1 + A.length + 1 + B.length] ++
        List.range' (pre.length + 1 + A.length)
          (pre.length + 1 + A.length + 1 + B.length - (pre.length + 1 + A.length))) ↔
      (j = pre.length ∨
        (pre.length + 1 + A.length ≤ j ∧ j ≤ pre.length + 1 + A.length + 1 + B.length)) := by
    intro j
    simp [List.mem_range'_1]
    omega
  unfold fix_ifdefs
  rw [hs]
  dsimp only
  rw [hscan]
  simp only [List.cons_ne_nil, if_false, hrem, reduceCtorEq, ite_false]
  congr 1
  rw [keepFrom_append, keepFrom_seg_keep _ _ pre
      (fun j h1 h2 => by rw [hmem j]; omega),
    keepFrom_cons_mem _ _ dL _ (by rw [hmem]; omega),
    keepFrom_append, keepFrom_seg_keep _ _ A (fun j h1 h2 => by rw [hmem j]; omega),
    keepFrom_cons_mem _ _ eL _ (by rw [hmem]; omega),
    keepFrom_append, keepFrom_seg_drop _ _ B (fun j h1 h2 => by rw [hmem j]; omega),
    keepFrom_cons_mem _ _ nL _ (by rw [hmem]; omega),
    keepFrom_seg_keep _ _ post (fun j h1 h2 => by rw [hmem j]; omega)]
  simp

/-- `fix_ifdefs` on a well-formed `#ifndef TARGET … #else … #endif` block:
the `#else` branch is kept; the span from the `#ifndef` line through the
`#else` line, plus the `#endif` line, is removed. -/
theorem fix_ifdefs_ifndef_with_else (old source : List Char)
    (pre A B post : List (List Char)) (dL eL nL : List Char)
    (hs : splitlines source = pre ++ dL :: (A ++ eL :: (B ++ nL :: post)))
    (hpre : ∀ l ∈ pre, classify l = .plain) (hA : ∀ l ∈ A, classify l = .plain)
    (hB : ∀ l ∈ B, classify l = .plain) (hpost : ∀ l ∈ post, classify l = .plain)
    (hd : classify dL = .condDir false old) (he : classify eL = .elseDir)
    (hn : classify nL = .endifDir) :
    fix_ifdefs old source = some (joinLines (pre ++ (B ++ post))) := by
  have hscan := scanBlocks_with_else old pre A B post dL eL nL false hpre hA hB hpost hd he hn
  have hrem : removalLines [⟨pre.length, false, some (pre.length + 1 + A.length),
      some (pre.length + 1 + A.length + 1 + B.length)⟩] =
      some ([pre.length, pre.length + 1 + A.length, pre.length + 1 + A.length + 1 + B.length] ++
        List.range' pre.length (pre.length + 1 + A.length - pre.length)) := by
    simp [removalLines, blockRemoval, Option.toList]
  have hmem : ∀ j,
      j ∈ ([pre.length, pre.length + 1 + A.length, pre.length + 1 + A.length + 1 + B.length] ++
        List.range' pre.length (pre.length + 1 + A.length - pre.length)) ↔
      ((pre.length ≤ j ∧ j ≤ pre.length + 1 + A.length) ∨
        j = pre.length + 1 + A.length + 1 + B.length) := by
    intro j
    simp [List.mem_range'_1]
    omega
  unfold fix_ifdefs
  rw [hs]
  dsimp only
  rw [hscan]
  simp only [List.cons_ne_nil, if_false, hrem, reduceCtorEq, ite_false]
  congr 1
  rw [keepFrom_append, keepFrom_seg_keep _ _ pre (fun j h1 h2 => by rw [hmem j]; omega),
    keepFrom_cons_mem _ _ dL _ (by rw [hmem]; omega),
    keepFrom_append, keepFrom_seg_drop _ _ A (fun j h1 h2 => by rw [hmem j]; omega),
    keepFrom_cons_mem _ _ eL _ (by rw [hmem]; omega),
    keepFrom_append, keepFrom_seg_keep _ _ B (fun j h1 h2 => by rw [hmem j]; omega),
    keepFrom_cons_mem _ _ nL _ (by rw [hmem]; omega),
    keepFrom_seg_keep _ _ post (fun j h1 h2 => by rw [hmem j]; omega)]
  simp

/-- `fix_ifdefs` on a well-formed `#ifdef TARGET … #endif` block with no
`#else`: only the two directive lines are removed, the body is kept. -/
theorem fix_ifdefs_ifdef_no_else (old source : List Char)
    (pre A post : List (List Char)) (dL nL : List Char)
    (hs : splitlines source = pre ++ dL :: (A ++ nL :: post))
    (hpre : ∀ l ∈ pre, classify l = .plain) (hA : ∀ l ∈ A, classify l = .plain)
    (hpost : ∀ l ∈ post, classify l = .plain)
    (hd : classify dL = .condDir true old) (hn : classify nL = .endifDir) :
    fix_ifdefs old source = some (joinLines (pre ++ (A ++ post))) := by
  have hscan := scanBlocks_no_else old pre A post dL nL true hpre hA hpost hd hn
  have hrem : removalLines [⟨pre.length, true, none, some (pre.length + 1 + A.length)⟩] =
      some [pre.length, pre.length + 1 + A.length] := by
    simp [removalLines, blockRemoval, Option.toList]
  have hmem : ∀ j, j ∈ [pre.length, pre.length + 1 + A.length] ↔
      (j = pre.length ∨ j = pre.length + 1 + A.length) := by
    intro j
    simp
  unfold fix_ifdefs
  rw [hs]
  dsimp only
  rw [hscan]
  simp only [List.cons_ne_nil, if_false, hrem, reduceCtorEq, ite_false]
  congr 1
  rw [keepFrom_append, keepFrom_seg_keep _ _ pre (fun j h1 h2 => by rw [hmem j]; omega),
    keepFrom_cons_mem _ _ dL _ (by rw [hmem]; omega),
    keepFrom_append, keepFrom_seg_keep _ _ A (fun j h1 h2 => by rw [hmem j]; omega),
    keepFrom_cons_mem _ _ nL _ (by rw [hmem]; omega),
    keepFrom_seg_keep _ _ post (fun j h1 h2 => by rw [hmem j]; omega)]

/-- `fix_ifdefs` on a well-formed `#ifndef TARGET … #endif` block with no
`#else`: the whole block, directives and body, is removed. -/
theorem fix_ifdefs_ifndef_no_else (old source : List Char)
    (pre A post : List (List Char)) (dL nL : List Char)
    (hs : splitlines source = pre ++ dL :: (A ++ nL :: post))
    (hpre : ∀ l ∈ pre, classify l = .plain) (hA : ∀ l ∈ A, classify l = .plain)
    (hpost : ∀ l ∈ post, classify l = .plain)
    (hd : classify dL = .condDir false old) (hn : classify nL = .endifDir) :
    fix_ifdefs old source = some (joinLines (pre ++ post)) := by
  have hscan := scanBlocks_no_else old pre A post dL nL false hpre hA hpost hd hn
  have hrem : removalLines [⟨pre.length, false, none, some (pre.length + 1 + A.length)⟩] =
      some ([pre.length, pre.length + 1 + A.length] ++
        List.range' pre.length (pre.length + 1 + A.length - pre.length)) := by
    simp [removalLines, blockRemoval, Option.toList]
  have hmem : ∀ j, j ∈ ([pre.length, pre.length + 1 + A.length] ++
      List.range' pre.length (pre.length + 1 + A.length - pre.length)) ↔
      (pre.length ≤ j ∧ j ≤ pre.length + 1 + A.length) := by
    intro j
    simp [List.mem_range'_1]
    omega
  unfold fix_ifdefs
  rw [hs]
  dsimp only
  rw [hscan]
  simp only [List.cons_ne_nil, if_false, hrem, reduceCtorEq, ite_false]
  congr 1
  rw [keepFrom_append, keepFrom_seg_keep _ _ pre (fun j h1 h2 => by rw [hmem j]; omega),
    keepFrom_cons_mem _ _ dL _ (by rw [hmem]; omega),
    keepFrom_append, keepFrom_seg_drop _ _ A (fun j h1 h2 => by rw [hmem j]; omega),
    keepFrom_cons_mem _ _ nL _ (by rw [hmem]; omega),
    keepFrom_seg_keep _ _ post (fun j h1 h2 => by rw [hmem j]; omega)]
  simp

/-- `fix_ifdefs` on an unterminated `#ifdef TARGET` with no `#else`: the
`#ifdef` directive line alone is deleted and the rest is kept (no exception,
but also not "left unmodified"). -/
theorem fix_ifdefs_unterminated_ifdef (old source : List Char)
    (pre body : List (List Char)) (dL : List Char)
    (hs : splitlines source = pre ++ dL :: body)
    (hpre : ∀ l ∈ pre, classify l = .plain) (hbody : ∀ l ∈ body, classify l = .plain)
    (hd : classify dL = .condDir true old) :
    fix_ifdefs old source = some (joinLines (pre ++ body)) := by
  have hscan := scanBlocks_unterminated old pre body dL true hpre hbody hd
  have hrem : removalLines [⟨pre.length, true, none, none⟩] = some [pre.length] := by
    simp [removalLines, blockRemoval, Option.toList]
  unfold fix_ifdefs
  rw [hs]
  dsimp only
  rw [hscan]
  simp only [List.cons_ne_nil, if_false, hrem, reduceCtorEq, ite_false]
  congr 1
  rw [keepFrom_append, keepFrom_seg_keep _ _ pre (fun j h1 h2 => by simp; omega),
    keepFrom_cons_mem _ _ dL _ (by simp),
    keepFrom_seg_keep _ _ body (fun j h1 h2 => by simp; omega)]

/-- `fix_ifdefs` on an unterminated `#ifndef TARGET`: the missing `"end"`
key is read eagerly by `block.get("else", block["end"])`, so the pass raises
a `KeyError`. -/
theorem fix_ifdefs_unterminated_ifndef (old source : List Char)
    (pre body : List (List Char)) (dL : List Char)
    (hs : splitlines source = pre ++ dL :: body)
    (hpre : ∀ l ∈ pre, classify l = .plain) (hbody : ∀ l ∈ body, classify l = .plain)
    (hd : classify dL = .condDir false old) :
    fix_ifdefs old source = none := by
  have hscan := scanBlocks_unterminated old pre body dL false hpre hbody hd
  unfold fix_ifdefs
  rw [hs]
  dsimp only
  rw [hscan]
  simp [removalLines, blockRemoval]

/-- `fix_ifdefs` on an unterminated `#ifdef TARGET` with an `#else`:
`range(block["else"], block["end"])` reads the missing `"end"` key, so the
pass raises a `KeyError`. -/
theorem fix_ifdefs_unterminated_ifdef_else (old source : List Char)
    (pre A B : List (List Char)) (dL eL : List Char)
    (hs : splitlines source = pre ++ dL :: (A ++ eL :: B))
    (hpre : ∀ l ∈ pre, classify l = .plain) (hA : ∀ l ∈ A, classify l = .plain)
    (hB : ∀ l ∈ B, classify l = .plain)
    (hd : classify dL = .condDir true old) (he : classify eL = .elseDir) :
    fix_ifdefs old source = none := by
  have hscan := scanBlocks_unterminated_else old pre A B dL eL true hpre hA hB hd he
  unfold fix_ifdefs
  rw [hs]
  dsimp only
  rw [hscan]
  simp [removalLines, blockRemoval]

/-- `fix_ifdefs` on an outer `#ifdef TARGET … #endif` (no `#else`) whose body
contains a nested conditional on a different name: the outer block is closed
at its true matching `#endif`, only the two outer directive lines are removed,
and the inner block's directives are untouched. -/
theorem fix_ifdefs_nested_kept (old source : List Char)
    (pre A B C post : List (List Char)) (dL d2 n2 nL : List Char) (k2 : Bool) (name2 : List Char)
    (hs : splitlines source = pre ++ dL :: (A ++ d2 :: (B ++ n2 :: (C ++ nL :: post))))
    (hpre : ∀ l ∈ pre, classify l = .plain) (hA : ∀ l ∈ A, classify l = .plain)
    (hB : ∀ l ∈ B, classify l = .plain) (hC : ∀ l ∈ C, classify l = .plain)
    (hpost : ∀ l ∈ post, classify l = .plain)
    (hd : classify dL = .condDir true old)
    (hd2 : classify d2 = .condDir k2 name2) (hne : name2 ≠ old)
    (hn2 : classify n2 = .endifDir) (hn : classify nL = .endifDir) :
    fix_ifdefs old source = some (joinLines (pre ++ (A ++ d2 :: (B ++ n2 :: (C ++ post))))) := by
  have hscan := scanBlocks_nested old pre A B C post dL d2 n2 nL true k2 name2
    hpre hA hB hC hpost hd hd2 hne hn2 hn
  have hrem : removalLines [⟨pre.length, true, none,
      some (pre.length + 1 + A.length + 1 + B.length + 1 + C.length)⟩] =
      some [pre.length, pre.length + 1 + A.length + 1 + B.length + 1 + C.length] := by
    simp [removalLines, blockRemoval, Option.toList]
  have hmem : ∀ j, j ∈ [pre.length, pre.length + 1 + A.length + 1 + B.length + 1 + C.length] ↔
      (j = pre.length ∨ j = pre.length + 1 + A.length + 1 + B.length + 1 + C.length) := by
    intro j
    simp
  unfold fix_ifdefs
  rw [hs]
  dsimp only
  rw [hscan]
  simp only [List.cons_ne_nil, if_false, hrem, reduceCtorEq, ite_false]
  congr 1
  rw [keepFrom_append, keepFrom_seg_keep _ _ pre (fun j h1 h2 => by rw [hmem j]; omega),
    keepFrom_cons_mem _ _ dL _ (by rw [hmem]; omega),
    keepFrom_append, keepFrom_seg_keep _ _ A (fun j h1 h2 => by rw [hmem j]; omega),
    keepFrom_cons_not_mem _ _ d2 _ (by rw [hmem]; omega),
    keepFrom_append, keepFrom_seg_keep _ _ B (fun j h1 h2 => by rw [hmem j]; omega),
    keepFrom_cons_not_mem _ _ n2 _ (by rw [hmem]; omega),
    keepFrom_append, keepFrom_seg_keep _ _ C (fun j h1 h2 => by rw [hmem j]; omega),
    keepFrom_cons_mem _ _ nL _ (by rw [hmem]; omega),
    keepFrom_seg_keep _ _ post (fun j h1 h2 => by rw [hmem j]; omega)]

/-- `fix_ifdefs` on an outer `#ifdef TARGET` block whose `#else` branch
contains a nested conditional on a different name: the whole `#else`…`#endif`
span including the nested block is removed and the primary branch kept. -/
theorem fix_ifdefs_nested_removed (old source : List Char)
    (pre A B1 B2 B3 post : List (List Char)) (dL eL d2 n2 nL : List Char)
    (k2 : Bool) (name2 : List Char)
    (hs : splitlines source =
      pre ++ dL :: (A ++ eL :: (B1 ++ d2 :: (B2 ++ n2 :: (B3 ++ nL :: post)))))
    (hpre : ∀ l ∈ pre, classify l = .plain) (hA : ∀ l ∈ A, classify l = .plain)
    (hB1 : ∀ l ∈ B1, classify l = .plain) (hB2 : ∀ l ∈ B2, classify l = .plain)
    (hB3 : ∀ l ∈ B3, classify l = .plain) (hpost : ∀ l ∈ post, classify l = .plain)
    (hd : classify dL = .condDir true old) (he : classify eL = .elseDir)
    (hd2 : classify d2 = .condDir k2 name2) (hne : name2 ≠ old)
    (hn2 : classify n2 = .endifDir) (hn : classify nL = .endifDir) :
    fix_ifdefs old source = some (joinLines (pre ++ (A ++ post))) := by
  have hscan := scanBlocks_nested_in_else old pre A B1 B2 B3 post dL eL d2 n2 nL true k2 name2
    hpre hA hB1 hB2 hB3 hpost hd he hd2 hne hn2 hn
  have hrem : removalLines [⟨pre.length, true, some (pre.length + 1 + A.length),
      some (pre.length + 1 + A.length + 1 + B1.length + 1 + B2.length + 1 + B3.length)⟩] =
      some ([pre.length, pre.length + 1 + A.length,
          pre.length + 1 + A.length + 1 + B1.length + 1 + B2.length + 1 + B3.length] ++
        List.range' (pre.length + 1 + A.length)
          (pre.length + 1 + A.length + 1 + B1.length + 1 + B2.length + 1 + B3.length -
            (pre.length + 1 + A.length))) := by
    simp [removalLines, blockRemoval, Option.toList]
  have hmem : ∀ j,
      j ∈ ([pre.length, pre.length + 1 + A.length,
          pre.length + 1 + A.length + 1 + B1.length + 1 + B2.length + 1 + B3.length] ++
        List.range' (pre.length + 1 + A.length)
          (pre.length + 1 + A.length + 1 + B1.length + 1 + B2.length + 1 + B3.length -
            (pre.length + 1 + A.length))) ↔
      (j = pre.length ∨ (pre.length + 1 + A.length ≤ j ∧
        j ≤ pre.length + 1 + A.length + 1 + B1.length + 1 + B2.length + 1 + B3.length)) := by
    intro j
    simp [List.mem_range'_1]
    omega
  unfold fix_ifdefs
  rw [hs]
  dsimp only
  rw [hscan]
  simp only [List.cons_ne_nil, if_false, hrem, reduceCtorEq, ite_false]
  congr 1
  rw [keepFrom_append, keepFrom_seg_keep _ _ pre (fun j h1 h2 => by rw [hmem j]; omega),
    keepFrom_cons_mem _ _ dL _ (by rw [hmem]; omega),
    keepFrom_append, keepFrom_seg_keep _ _ A (fun j h1 h2 => by rw [hmem j]; omega),
    keepFrom_cons_mem _ _ eL _ (by rw [hmem]; omega),
    keepFrom_append, keepFrom_seg_drop _ _ B1 (fun j h1 h2 => by rw [hmem j]; omega),
    keepFrom_cons_mem _ _ d2 _ (by rw [hmem]; omega),
    keepFrom_append, keepFrom_seg_drop _ _ B2 (fun j h1 h2 => by rw [hmem j]; omega),
    keepFrom_cons_mem _ _ n2 _ (by rw [hmem]; omega),
    keepFrom_append, keepFrom_seg_drop _ _ B3 (fun j h1 h2 => by rw [hmem j]; omega),
    keepFrom_cons_mem _ _ nL _ (by rw [hmem]; omega),
    keepFrom_seg_keep _ _ post (fun j h1 h2 => by rw [hmem j]; omega)]
  simp

/-- C1, counterexample.  The claim states the resolution policy with the
polarities swapped: it predicts that `#ifdef T\nA();\n#else\nB();\n#endif`
keeps the `#else` branch (`B();`), that an `#ifdef` block without `#else` is
deleted entirely, that `#ifndef` keeps the primary branch (`A();`), and that
an `#ifndef` block without `#else` keeps its body.  The code does the exact
opposite in all four cases. -/
theorem C1_counterexample :
    (fix_ifdefs "T".toList "#ifdef T\nA();\n#else\nB();\n#endif".toList =
      some "A();".toList ∧ ("A();".toList ≠ "B();".toList)) ∧
    (fix_ifdefs "T".toList "#ifndef T\nA();\n#else\nB();\n#endif".toList =
      some "B();".toList ∧ ("B();".toList ≠ "A();".toList)) ∧
    (fix_ifdefs "T".toList "#ifdef T\nA();\n#endif\nbar();".toList =
      some "A();\nbar();".toList ∧ ("A();\nbar();".toList ≠ "bar();".toList)) ∧
    (fix_ifdefs "T".toList "#ifndef T\nA();\n#endif\nbar();".toList =
      some "bar();".toList ∧ ("bar();".toList ≠ "A();\nbar();".toList)) := by
  decide

/-- C1 (amended).  For every source text containing a well-formed conditional
block keyed on the target macro, `fix_ifdefs` treats `#ifdef TARGET` blocks by
keeping the PRIMARY branch content (when an `#else` is present) and deleting
the `#ifdef` directive line together with the span from the `#else` line
through the matching `#endif` line; when no `#else` is present it keeps the
body and strips only the two directive lines.  For `#ifndef TARGET` the
polarity is inverted: the `#else` branch is kept and the `#ifndef`-to-`#else`
span plus the `#endif` line are deleted; with no `#else` the entire block,
directives and body, is deleted.  (This is the exact inverse of the claimed
policy; the macro is treated as always defined.) -/
theorem C1_amended_resolution_policy :
    (∀ (old source : List Char) (pre A B post : List (List Char)) (dL eL nL : List Char),
      splitlines source = pre ++ dL :: (A ++ eL :: (B ++ nL :: post)) →
      PlainLines pre → PlainLines A → PlainLines B → PlainLines post →
      classify dL = .condDir true old → classify eL = .elseDir →
      classify nL = .endifDir →
      fix_ifdefs old source = some (joinLines (pre ++ (A ++ post)))) ∧
    (∀ (old source : List Char) (pre A B post : List (List Char)) (dL eL nL : List Char),
      splitlines source = pre ++ dL :: (A ++ eL :: (B ++ nL :: post)) →
      PlainLines pre → PlainLines A → PlainLines B → PlainLines post →
      classify dL = .condDir false old → classify eL = .elseDir →
      classify nL = .endifDir →
      fix_ifdefs old source = some (joinLines (pre ++ (B ++ post)))) ∧
    (∀ (old source : List Char) (pre A post : List (List Char)) (dL nL : List Char),
      splitlines source = pre ++ dL :: (A ++ nL :: post) →
      PlainLines pre → PlainLines A → PlainLines post →
      classify dL = .condDir true old → classify nL = .endifDir →
      fix_ifdefs old source = some (joinLines (pre ++ (A ++ post)))) ∧
    (∀ (old source : List Char) (pre A post : List (List Char)) (dL nL : List Char),
      splitlines source = pre ++ dL :: (A ++ nL :: post) →
      PlainLines pre → PlainLines A → PlainLines post →
      classify dL = .condDir false old → classify nL = .endifDir →
      fix_ifdefs old source = some (joinLines (pre ++ post))) := by
  refine ⟨?_, ?_, ?_, ?_⟩
  · intro old source pre A B post dL eL nL hs hpre hA hB hpost hd he hn
    exact fix_ifdefs_ifdef_with_else old source pre A B post dL eL nL hs hpre hA hB hpost hd he hn
  · intro old source pre A B post dL eL nL hs hpre hA hB hpost hd he hn
    exact fix_ifdefs_ifndef_with_else old source pre A B post dL eL nL hs hpre hA hB hpost hd he hn
  · intro old source pre A post dL nL hs hpre hA hpost hd hn
    exact fix_ifdefs_ifdef_no_else old source pre A post dL nL hs hpre hA hpost hd hn
  · intro old source pre A post dL nL hs hpre hA hpost hd hn
    exact fix_ifdefs_ifndef_no_else old source pre A post dL nL hs hpre hA hpost hd hn

/-- C1, witness: the amended policy applied to concrete one-line branches in
all four shapes. -/
theorem C1_amended_resolution_policy_witness :
    (fix_ifdefs "T".toList "x;\n#ifdef T\nA();\n#else\nB();\n#endif\ny;".toList =
      some (joinLines (["x;".toList] ++ (["A();".toList] ++ ["y;".toList])))) ∧
    (fix_ifdefs "T".toList "x;\n#ifndef T\nA();\n#else\nB();\n#endif\ny;".toList =
      some (joinLines (["x;".toList] ++ (["B();".toList] ++ ["y;".toList])))) ∧
    (fix_ifdefs "T".toList "x;\n#ifdef T\nA();\n#endif\ny;".toList =
      some (joinLines (["x;".toList] ++ (["A();".toList] ++ ["y;".toList])))) ∧
    (fix_ifdefs "T".toList "x;\n#ifndef T\nA();\n#endif\ny;".toList =
      some (joinLines (["x;".toList] ++ ["y;".toList]))) :=
  ⟨C1_amended_resolution_policy.1 "T".toList _ ["x;".toList] ["A();".toList] ["B();".toList]
      ["y;".toList] "#ifdef T".toList "#else".toList "#endif".toList
      (by decide) (by decide) (by decide) (by decide) (by decide) (by decide) (by decide) (by decide),
    C1_amended_resolution_policy.2.1 "T".toList _ ["x;".toList] ["A();".toList] ["B();".toList]
      ["y;".toList] "#ifndef T".toList "#else".toList "#endif".toList
      (by decide) (by decide) (by decide) (by decide) (by decide) (by decide) (by decide) (by decide),
    C1_amended_resolution_policy.2.2.1 "T".toList _ ["x;".toList] ["A();".toList]
      ["y;".toList] "#ifdef T".toList "#endif".toList
      (by decide) (by decide) (by decide) (by decide) (by decide) (by decide),
    C1_amended_resolution_policy.2.2.2 "T".toList _ ["x;".toList] ["A();".toList]
      ["y;".toList] "#ifndef T".toList "#endif".toList
      (by decide) (by decide) (by decide) (by decide) (by decide) (by decide)⟩

/-- C4.  For every source text in which an outer `#ifdef MACRO` block on the
target macro contains a nested conditional on a different name, the scan
counts the nested `#ifdef`/`#ifndef` up and its `#endif` down, finalizing the
outer record exactly at the outer block's true matching `#endif`: with no
outer `#else` the nested block (in the kept branch) survives untouched, and a
nested block inside the removed `#else` branch is deleted with that branch. -/
theorem C4_nested_blocks :
    (∀ (old source : List Char) (pre A B C post : List (List Char))
      (dL d2 n2 nL : List Char) (k2 : Bool) (name2 : List Char),
      splitlines source = pre ++ dL :: (A ++ d2 :: (B ++ n2 :: (C ++ nL :: post))) →
      PlainLines pre → PlainLines A → PlainLines B → PlainLines C → PlainLines post →
      classify dL = .condDir true old →
      classify d2 = .condDir k2 name2 → name2 ≠ old →
      classify n2 = .endifDir → classify nL = .endifDir →
      fix_ifdefs old source =
        some (joinLines (pre ++ (A ++ d2 :: (B ++ n2 :: (C ++ post)))))) ∧
    (∀ (old source : List Char) (pre A B1 B2 B3 post : List (List Char))
      (dL eL d2 n2 nL : List Char) (k2 : Bool) (name2 : List Char),
      splitlines source =
        pre ++ dL :: (A ++ eL :: (B1 ++ d2 :: (B2 ++ n2 :: (B3 ++ nL :: post)))) →
      PlainLines pre → PlainLines A → PlainLines B1 → PlainLines B2 → PlainLines B3 →
      PlainLines post →
      classify dL = .condDir true old → classify eL = .elseDir →
      classify d2 = .condDir k2 name2 → name2 ≠ old →
      classify n2 = .endifDir → classify nL = .endifDir →
      fix_ifdefs old source = some (joinLines (pre ++ (A ++ post)))) := by
  constructor
  · intro old source pre A B C post dL d2 n2 nL k2 name2 hs hpre hA hB hC hpost hd hd2 hne hn2 hn
    exact fix_ifdefs_nested_kept old source pre A B C post dL d2 n2 nL k2 name2
      hs hpre hA hB hC hpost hd hd2 hne hn2 hn
  · intro old source pre A B1 B2 B3 post dL eL d2 n2 nL k2 name2
      hs hpre hA hB1 hB2 hB3 hpost hd he hd2 hne hn2 hn
    exact fix_ifdefs_nested_removed old source pre A B1 B2 B3 post dL eL d2 n2 nL k2 name2
      hs hpre hA hB1 hB2 hB3 hpost hd he hd2 hne hn2 hn

/-- C4, witness: an outer `#ifdef MACRO` with an inner `#ifdef OTHER` block,
once in the kept branch (inner directives untouched) and once in the removed
`#else` branch (inner block deleted). -/
theorem C4_nested_blocks_witness :
    (fix_ifdefs "MACRO".toList
      "a;\n#ifdef MACRO\nb;\n#ifdef OTHER\nc;\n#endif\nd;\n#endif\ne;".toList =
      some (joinLines (["a;".toList] ++ (["b;".toList] ++ "#ifdef OTHER".toList ::
        (["c;".toList] ++ "#endif".toList :: (["d;".toList] ++ ["e;".toList])))))) ∧
    (fix_ifdefs "MACRO".toList
      "a;\n#ifdef MACRO\nb;\n#else\nc;\n#ifdef OTHER\nd;\n#endif\ne;\n#endif\nf;".toList =
      some (joinLines (["a;".toList] ++ (["b;".toList] ++ ["f;".toList])))) :=
  ⟨C4_nested_blocks.1 "MACRO".toList _ ["a;".toList] ["b;".toList] ["c;".toList]
      ["d;".toList] ["e;".toList] "#ifdef MACRO".toList "#ifdef OTHER".toList
      "#endif".toList "#endif".toList true "OTHER".toList
      (by decide) (by decide) (by decide) (by decide) (by decide) (by decide) (by decide)
      (by decide) (by decide) (by decide) (by decide),
    C4_nested_blocks.2 "MACRO".toList _ ["a;".toList] ["b;".toList] ["c;".toList]
      ["d;".toList] ["e;".toList] ["f;".toList] "#ifdef MACRO".toList "#else".toList
      "#ifdef OTHER".toList "#endif".toList "#endif".toList true "OTHER".toList
      (by decide) (by decide) (by decide) (by decide) (by decide) (by decide) (by decide)
      (by decide) (by decide) (by decide) (by decide) (by decide) (by decide)⟩

/-- C5, counterexample.  An unterminated `#ifndef T` block makes the pass
raise a `KeyError` (modelled as `none`), and an unterminated `#ifdef T`
deletes the directive line — neither "leaves the file unmodified with no
crash" as claimed. -/
theorem C5_counterexample :
    fix_ifdefs "T".toList "#ifndef T\nfoo();".toList = none ∧
    fix_ifdefs "T".toList "#ifdef T\nfoo();".toList = some "foo();".toList ∧
    "foo();".toList ≠ "#ifdef T\nfoo();".toList := by
  decide

/-- C5 (amended).  For a tracked block with no terminating `#endif`:
an `#ifdef TARGET` with no `#else` has only its directive line deleted (the
body is kept and no exception is raised); an unterminated `#ifndef TARGET`,
or an unterminated `#ifdef TARGET` with an `#else`, raises a `KeyError`
(the missing `"end"` key), crashing the pass. -/
theorem C5_amended_unterminated_behaviour :
    (∀ (old source : List Char) (pre body : List (List Char)) (dL : List Char),
      splitlines source = pre ++ dL :: body →
      PlainLines pre → PlainLines body →
      classify dL = .condDir true old →
      fix_ifdefs old source = some (joinLines (pre ++ body))) ∧
    (∀ (old source : List Char) (pre body : List (List Char)) (dL : List Char),
      splitlines source = pre ++ dL :: body →
      PlainLines pre → PlainLines body →
      classify dL = .condDir false old →
      fix_ifdefs old source = none) ∧
    (∀ (old source : List Char) (pre A B : List (List Char)) (dL eL : List Char),
      splitlines source = pre ++ dL :: (A ++ eL :: B) →
      PlainLines pre → PlainLines A → PlainLines B →
      classify dL = .condDir true old → classify eL = .elseDir →
      fix_ifdefs old source = none) := by
  refine ⟨?_, ?_, ?_⟩
  · intro old source pre body dL hs hpre hbody hd
    exact fix_ifdefs_unterminated_ifdef old source pre body dL hs hpre hbody hd
  · intro old source pre body dL hs hpre hbody hd
    exact fix_ifdefs_unterminated_ifndef old source pre body dL hs hpre hbody hd
  · intro old source pre A B dL eL hs hpre hA hB hd he
    exact fix_ifdefs_unterminated_ifdef_else old source pre A B dL eL hs hpre hA hB hd he

/-- C5, witness: the three unterminated shapes at concrete inputs. -/
theorem C5_amended_unterminated_behaviour_witness :
    (fix_ifdefs "T".toList "a;\n#ifdef T\nfoo();".toList =
      some (joinLines (["a;".toList] ++ ["foo();".toList]))) ∧
    (fix_ifdefs "T".toList "a;\n#ifndef T\nfoo();".toList = none) ∧
    (fix_ifdefs "T".toList "a;\n#ifdef T\nfoo();\n#else\nbar();".toList = none) :=
  ⟨C5_amended_unterminated_behaviour.1 "T".toList _ ["a;".toList] ["foo();".toList]
      "#ifdef T".toList (by decide) (by decide) (by decide) (by decide),
    C5_amended_unterminated_behaviour.2.1 "T".toList _ ["a;".toList] ["foo();".toList]
      "#ifndef T".toList (by decide) (by decide) (by decide) (by decide),
    C5_amended_unterminated_behaviour.2.2 "T".toList _ ["a;".toList] ["foo();".toList]
      ["bar();".toList] "#ifdef T".toList "#else".toList
      (by decide) (by decide) (by decide) (by decide) (by decide) (by decide)⟩

/-! ## Substring lemmas: when `old` does not occur, every fix is a no-op -/

theorem stripLit_eq_append : ∀ (pat s r : List Char), stripLit pat s = some r → s = pat ++ r := by
  intro pat
  induction pat with
  | nil =>
    intro s r h
    simp only [stripLit, Option.some.injEq] at h
    simp [h]
  | cons p ps ih =>
    intro s r h
    cases s with
    | nil => simp [stripLit] at h
    | cons c cs =>
      simp only [stripLit] at h
      split at h
      · rename_i hcp
        rw [List.cons_append, hcp, ih cs r h]
      · exact absurd h (by simp)

theorem stripLit_isSome_of_begins : ∀ (pat s : List Char), List.IsPrefix pat s →
    (stripLit pat s).isSome = true := by
  intro pat
  induction pat with
  | nil => intro s _; simp [stripLit]
  | cons p ps ih =>
    intro s hp
    obtain ⟨t, ht⟩ := hp
    subst ht
    simp only [List.cons_append, stripLit, if_pos rfl]
    exact ih (ps ++ t) ⟨t, rfl⟩

theorem dropSpacesStar_isSuffix (s : List Char) : List.IsSuffix (dropSpacesStar s) s := by
  induction s with
  | nil => simp [dropSpacesStar]
  | cons c cs ih =>
    simp only [dropSpacesStar]
    split
    · exact ih.trans (List.suffix_cons c cs)
    · exact List.suffix_refl _

theorem hasSubstring_iff_contig (pat : List Char) : ∀ (s : List Char),
    hasSubstring pat s = true ↔ List.IsInfix pat s := by
  intro s
  induction s with
  | nil =>
    simp only [hasSubstring, decide_eq_true_eq, List.infix_nil]
  | cons c rest ih =>
    simp only [hasSubstring, Bool.or_eq_true, ih, List.infix_cons_iff]
    constructor
    · rintro (h | h)
      · obtain ⟨r, hr⟩ := Option.isSome_iff_exists.mp h
        exact Or.inl ⟨r, (stripLit_eq_append pat _ r hr).symm⟩
      · exact Or.inr h
    · rintro (h | h)
      · exact Or.inl (stripLit_isSome_of_begins pat _ h)
      · exact Or.inr h

theorem hasSubstring_cons_false {pat : List Char} {c : Char} {rest : List Char}
    (h : hasSubstring pat (c :: rest) = false) : hasSubstring pat rest = false := by
  simp only [hasSubstring, Bool.or_eq_false_iff] at h
  exact h.2

theorem isPrefix_of_stripLit {pat s r : List Char} (h : stripLit pat s = some r) :
    List.IsPrefix pat s :=
  ⟨r, (stripLit_eq_append pat s r h).symm⟩

theorem isSuffix_of_stripLit {pat s r : List Char} (h : stripLit pat s = some r) :
    List.IsSuffix r s :=
  ⟨pat, (stripLit_eq_append pat s r h).symm⟩

theorem isPrefix_cons_cons {p s : List Char} (c : Char) (h : List.IsPrefix p s) :
    List.IsPrefix (c :: p) (c :: s) := by
  obtain ⟨t, ht⟩ := h
  exact ⟨t, by rw [List.cons_append, ht]⟩

/-- If `old` matches literally at a suffix position of `s`, then `old` occurs
as a substring of `s`. -/
theorem hasSubstring_of_strip_suffix {old v s r : List Char} (hv : List.IsSuffix v s)
    (h : stripLit old v = some r) : hasSubstring old s = true :=
  (hasSubstring_iff_contig old s).mpr ((isPrefix_of_stripLit h).isInfix.trans hv.isInfix)

theorem wordOccursAux_substring {old : List Char} : ∀ (s : List Char) (prev : Option Char),
    wordOccursAux old prev s = true → hasSubstring old s = true := by
  intro s
  induction s with
  | nil =>
    intro prev h
    simp only [wordOccursAux, wordMatchHere] at h
    cases hs : stripLit old ([] : List Char) with
    | none => rw [hs] at h; simp at h
    | some r => exact hasSubstring_of_strip_suffix (List.suffix_refl _) hs
  | cons c rest ih =>
    intro prev h
    simp only [wordOccursAux, Bool.or_eq_true] at h
    cases h with
    | inl h1 =>
      simp only [wordMatchHere] at h1
      cases hs : stripLit old (c :: rest) with
      | none => rw [hs] at h1; simp at h1
      | some r => exact hasSubstring_of_strip_suffix (List.suffix_refl _) hs
    | inr h2 =>
      have := ih (some c) h2
      simp only [hasSubstring, Bool.or_eq_true]
      exact Or.inr this

theorem wordOccurs_false_of_no_substring {old s : List Char}
    (h : hasSubstring old s = false) : wordOccurs old s = false := by
  cases hw : wordOccurs old s
  · rfl
  · exact absurd (wordOccursAux_substring s none hw) (by simp [h])

theorem tryDirectiveAt_eq_none (word old s : List Char)
    (h : hasSubstring old s = false) : tryDirectiveAt word old s = none := by
  unfold tryDirectiveAt
  cases h1 : stripLit ('#' :: word) s with
  | none => rfl
  | some r1 =>
    cases r1 with
    | nil => rfl
    | cons c r2 =>
      simp only
      split
      · cases h2 : stripLit old (dropSpacesStar r2) with
        | none => rfl
        | some r3 =>
          exfalso
          have hr1 : List.IsSuffix (c :: r2) s :=
            ⟨'#' :: word, (stripLit_eq_append _ s (c :: r2) h1).symm⟩
          have hr2 : List.IsSuffix r2 s := (List.suffix_cons c r2).trans hr1
          have hv : List.IsSuffix (dropSpacesStar r2) s := (dropSpacesStar_isSuffix r2).trans hr2
          rw [hasSubstring_of_strip_suffix hv h2] at h
          exact absurd h (by simp)
      · rfl

theorem subDirective_noop (word old repl : List Char) : ∀ (fuel : Nat) (s : List Char),
    hasSubstring old s = false → subDirective word old repl fuel s = s := by
  intro fuel
  induction fuel with
  | zero => intro s _; rfl
  | succ n ih =>
    intro s h
    cases s with
    | nil => rfl
    | cons c rest =>
      simp only [subDirective, tryDirectiveAt_eq_none word old _ h]
      rw [ih rest (hasSubstring_cons_false h)]

theorem fix_always_defined_macros_noop (old new source : List Char)
    (h : hasSubstring old source = false) :
    fix_always_defined_macros old new source = source := by
  unfold fix_always_defined_macros
  rw [subDirective_noop _ _ _ _ _ h, subDirective_noop _ _ _ _ _ h]

theorem tryReplAt_eq_none (old new s : List Char)
    (h : hasSubstring old s = false) : tryReplAt old new s = none := by
  unfold tryReplAt
  cases s with
  | nil => rfl
  | cons c1 rest =>
    simp only
    split
    · rfl
    · cases h2 : stripLit old rest with
      | none => rfl
      | some r2 =>
        exfalso
        rw [hasSubstring_of_strip_suffix (List.suffix_cons c1 rest) h2] at h
        exact absurd h (by simp)

theorem subReplacement_noop (old new : List Char) : ∀ (fuel : Nat) (s : List Char),
    hasSubstring old s = false → subReplacement old new fuel s = s := by
  intro fuel
  induction fuel with
  | zero => intro s _; rfl
  | succ n ih =>
    intro s h
    cases s with
    | nil => rfl
    | cons c rest =>
      simp only [subReplacement, tryReplAt_eq_none old new _ h]
      rw [ih rest (hasSubstring_cons_false h)]

theorem fix_replacement_noop (old new source : List Char)
    (h : hasSubstring old source = false) : fix_replacement old new source = source := by
  unfold fix_replacement
  exact subReplacement_noop old new source.length source h

theorem fix_include_version_header_noop (old : List Char) (headers : List (List Char))
    (source : List Char) (h : wordOccurs old source = false) :
    fix_include_version_header old headers source = some source := by
  unfold fix_include_version_header
  split
  · rfl
  · simp [h]

/-! Lines produced by splitlines are infixes of the original text. -/

theorem splitOnNl_head_begins : ∀ (s p : List Char) (ps : List (List Char)),
    splitOnNl s = p :: ps → List.IsPrefix p s := by
  intro s
  induction s with
  | nil =>
    intro p ps h
    simp only [splitOnNl, List.cons.injEq] at h
    simp [h.1.symm]
  | cons c rest ih =>
    intro p ps h
    simp only [splitOnNl] at h
    split at h
    · simp only [List.cons.injEq] at h
      rw [h.1.symm]
      exact List.nil_prefix
    · revert h
      cases hr : splitOnNl rest with
      | nil =>
        intro h
        simp only [List.cons.injEq] at h
        rw [h.1.symm]
        simp
      | cons q qs =>
        intro h
        simp only [List.cons.injEq] at h
        rw [h.1.symm]
        exact isPrefix_cons_cons c (ih q qs hr)

theorem mem_splitOnNl_infix : ∀ (s l : List Char), l ∈ splitOnNl s → List.IsInfix l s := by
  intro s
  induction s with
  | nil =>
    intro l h
    simp only [splitOnNl, List.mem_singleton] at h
    simp [h]
  | cons c rest ih =>
    intro l h
    simp only [splitOnNl] at h
    split at h
    · rcases List.mem_cons.mp h with h1 | h2
      · simp [h1]
      · exact (ih l h2).trans (List.infix_cons (List.infix_refl rest))
    · revert h
      cases hr : splitOnNl rest with
      | nil =>
        intro h
        simp only [List.mem_singleton] at h
        subst h
        have hp : List.IsPrefix [c] (c :: rest) := ⟨rest, rfl⟩
        exact hp.isInfix
      | cons q qs =>
        intro h
        rcases List.mem_cons.mp h with h1 | h2
        · subst h1
          exact (isPrefix_cons_cons c (splitOnNl_head_begins rest q qs hr)).isInfix
        · have : l ∈ splitOnNl rest := by rw [hr]; exact List.mem_cons_of_mem q h2
          exact (ih l this).trans (List.infix_cons (List.infix_refl rest))

theorem mem_splitlines_contig {s l : List Char} (h : l ∈ splitlines s) : List.IsInfix l s := by
  have hsub : l ∈ splitOnNl s := by
    unfold splitlines at h
    cases s with
    | nil => simp at h
    | cons c rest =>
      dsimp only at h
      split at h
      · exact (List.dropLast_sublist _).subset h
      · exact h
  exact mem_splitOnNl_infix s l hsub

/-- A line classified as a tracked directive carries the target name as a
suffix of the line (group 2 is the tail of the line). -/
theorem matchIfdef_name_suffix {l : List Char} {k : Bool} {name : List Char}
    (h : matchIfdef l = some (k, name)) : List.IsSuffix name l := by
  unfold matchIfdef at h
  split at h
  · rename_i rest
    have hsuf0 : List.IsSuffix (dropSpacesStar rest) ('#' :: rest) :=
      (dropSpacesStar_isSuffix rest).trans (List.suffix_cons '#' rest)
    dsimp only at h
    cases h1 : stripLit ['i', 'f', 'n', 'd', 'e', 'f'] (dropSpacesStar rest) with
    | some r2 =>
      rw [h1] at h
      simp only [Option.some.injEq, Prod.mk.injEq] at h
      rw [← h.2]
      have hr2 : List.IsSuffix r2 ('#' :: rest) := (isSuffix_of_stripLit h1).trans hsuf0
      exact (dropSpacesStar_isSuffix r2).trans hr2
    | none =>
      rw [h1] at h
      cases h2 : stripLit ['i', 'f', 'd', 'e', 'f'] (dropSpacesStar rest) with
      | some r2 =>
        rw [h2] at h
        simp only [Option.some.injEq, Prod.mk.injEq] at h
        rw [← h.2]
        have hr2 : List.IsSuffix r2 ('#' :: rest) := (isSuffix_of_stripLit h2).trans hsuf0
        exact (dropSpacesStar_isSuffix r2).trans hr2
      | none =>
        rw [h2] at h
        exact absurd h (by simp)
  · exact absurd h (by simp)

theorem matchIfdef_of_classify {l : List Char} {k : Bool} {name : List Char}
    (h : classify l = .condDir k name) : matchIfdef l = some (k, name) := by
  unfold classify at h
  split at h
  · exact absurd h (by simp)
  · split at h
    · exact absurd h (by simp)
    · split at h
      · rename_i k2 name2 heq
        simp only [LineKind.condDir.injEq] at h
        rw [heq, h.1, h.2]
      · exact absurd h (by simp)

theorem scanStep_blocks_nil (old : List Char) (lines : List (List Char)) :
    ∀ (i : Nat) (ii : Option Nat),
    (∀ l ∈ lines, ∀ k : Bool, classify l ≠ LineKind.condDir k old) →
    (lines.foldl (scanStep old) ⟨i, ii, []⟩).blocks = [] := by
  induction lines with
  | nil => intro i ii _; rfl
  | cons l ls ih =>
    intro i ii h
    rw [List.foldl_cons]
    have hstep : ∃ ii2, scanStep old ⟨i, ii, []⟩ l = ⟨i + 1, ii2, []⟩ := by
      cases hc : classify l with
      | plain => exact ⟨ii, by simp [scanStep, hc]⟩
      | elseDir =>
        by_cases hii : (ii = some 1)
        · exact ⟨ii, by simp [scanStep, hc, hii, setElse]⟩
        · exact ⟨ii, by simp [scanStep, hc, hii]⟩
      | endifDir =>
        cases ii with
        | none => exact ⟨none, by simp [scanStep, hc]⟩
        | some d =>
          by_cases hd : d = 1
          · exact ⟨none, by simp [scanStep, hc, hd, setEnd]⟩
          · exact ⟨some (d - 1), by simp [scanStep, hc, hd]⟩
      | condDir k2 nm =>
        have hne : nm ≠ old := fun he => h l (by simp) k2 (by rw [hc, he])
        cases ii with
        | some d => exact ⟨some (d + 1), by simp [scanStep, hc, hne]⟩
        | none => exact ⟨none, by simp [scanStep, hc, hne]⟩
    obtain ⟨ii2, hstep⟩ := hstep
    rw [hstep]
    exact ih (i + 1) ii2 (fun x hx k => h x (by simp [hx]) k)

/-- When the target does not occur as a substring, no line is tracked and
`fix_ifdefs` returns the source string unchanged via its early return. -/
theorem fix_ifdefs_noop (old source : List Char) (h : hasSubstring old source = false) :
    fix_ifdefs old source = some source := by
  have hlines : ∀ l ∈ splitlines source, ∀ k : Bool, classify l ≠ LineKind.condDir k old := by
    intro l hl k hc
    have hsuffix := matchIfdef_name_suffix (matchIfdef_of_classify hc)
    have hinf : List.IsInfix old source := hsuffix.isInfix.trans (mem_splitlines_contig hl)
    rw [(hasSubstring_iff_contig old source).mpr hinf] at h
    exact absurd h (by simp)
  have hb : scanBlocks old (splitlines source) = [] := scanStep_blocks_nil old _ 0 none hlines
  unfold fix_ifdefs
  dsimp only
  rw [hb]
  simp

/-- When no rule's old identifier occurs in the text, `apply_fixes` returns
the text unchanged (removed-macro diagnostics may still be printed). -/
theorem apply_fixes_noop (rs : List Replacement) (source : List Char)
    (h : ∀ r ∈ rs, hasSubstring r.old source = false) :
    ∃ msgs, apply_fixes rs source = some (source, msgs) := by
  induction rs with
  | nil => exact ⟨[], rfl⟩
  | cons r rs ih =>
    have hr : hasSubstring r.old source = false := h r (by simp)
    have hw : wordOccurs r.old source = false := wordOccurs_false_of_no_substring hr
    obtain ⟨msgs, hmsgs⟩ := ih (fun x hx => h x (by simp [hx]))
    cases hn : r.new with
    | none =>
      refine ⟨removedMsg r.old :: msgs, ?_⟩
      simp only [apply_fixes, hn, hmsgs]
    | some n =>
      refine ⟨msgs, ?_⟩
      simp only [apply_fixes, hn, fix_include_version_header_noop r.old r.headers source hw]
      cases hmac : r.isMacro <;> cases hal : r.alwaysDefined <;>
        simp [hmac, hal, fix_always_defined_macros_noop r.old n source hr,
          fix_ifdefs_noop r.old source hr, fix_replacement_noop r.old n source hr, hmsgs]

/-- C3, counterexample.  The full rule set applied to a text with two adjacent
occurrences of `REVISION` replaces only the first (the replacement regex
consumes the context characters), so a second application of the full
migration still changes the text: the transformation is not idempotent. -/
theorem C3_counterexample :
    apply_fixes_text MACRO_REPLACEMENTS " REVISION REVISION ".toList =
      some "#include \"bout/revision.hxx\"\n bout::version::revision REVISION ".toList ∧
    apply_fixes_text MACRO_REPLACEMENTS
      "#include \"bout/revision.hxx\"\n bout::version::revision REVISION ".toList =
      some
        "#include \"bout/revision.hxx\"\n bout::version::revision bout::version::revision ".toList ∧
    ("#include \"bout/revision.hxx\"\n bout::version::revision REVISION ".toList ≠
      "#include \"bout/revision.hxx\"\n bout::version::revision bout::version::revision ".toList) := by
  refine ⟨by decide, by decide, by decide⟩

/-- C3 (amended).  Re-running the migration adds no diff on text in which no
rule's old identifier occurs as a substring — in particular on output whose
old identifiers were all replaced — but the transformation is not idempotent
in general: when two occurrences of a rule's old identifier are separated by
a single character, the first pass replaces only the first occurrence (the
substitution consumes the adjacent context characters), and a second pass
replaces the survivor (see the counterexample). -/
theorem C3_amended_rerun_noop (rs : List Replacement) (source : List Char)
    (h : ∀ r ∈ rs, hasSubstring r.old source = false) :
    apply_fixes_text rs source = some source := by
  obtain ⟨msgs, hm⟩ := apply_fixes_noop rs source h
  unfold apply_fixes_text
  rw [hm]
  rfl

/-- C3, witness: the full `MACRO_REPLACEMENTS` rule set leaves a text without
any of the old identifiers untouched. -/
theorem C3_amended_rerun_noop_witness :
    apply_fixes_text MACRO_REPLACEMENTS "int x = 0;".toList = some "int x = 0;".toList :=
  C3_amended_rerun_noop MACRO_REPLACEMENTS "int x = 0;".toList (by decide)

/-- C2, counterexample.  With the single rule `{old: REMOVED, new: None}`,
`apply_fixes` prints the diagnostic and `continue`s past every fix, so the
`#ifdef REMOVED` block is NOT deleted: the output equals the input, not the
claimed `bar();\n`. -/
theorem C2_counterexample :
    apply_fixes [⟨"REMOVED".toList, none, [], true, true⟩]
      "#ifdef REMOVED\nfoo();\n#endif\nbar();\n".toList =
      some ("#ifdef REMOVED\nfoo();\n#endif\nbar();\n".toList, [removedMsg "REMOVED".toList]) ∧
    ("#ifdef REMOVED\nfoo();\n#endif\nbar();\n".toList ≠ "bar();\n".toList) := by
  refine ⟨by decide, by decide⟩

/-- C2 (amended).  Running the migration on `#ifdef REMOVED\nfoo();\n#endif\nbar();\n`
with the single rule `{old: REMOVED, new: none}` produces output identical to
the input (the rule is skipped before any transformation), prints exactly the
diagnostic `REMOVED has been removed, please delete from your code`, and does
not crash. -/
theorem C2_amended_removed_rule_scenario :
    apply_fixes [⟨"REMOVED".toList, none, [], true, true⟩]
      "#ifdef REMOVED\nfoo();\n#endif\nbar();\n".toList =
      some ("#ifdef REMOVED\nfoo();\n#endif\nbar();\n".toList,
        ["REMOVED has been removed, please delete from your code".toList]) := by
  decide

/-- C9, counterexample.  Under the full `apply_fixes` pipeline the
header-include step runs first: with the rule's headers list empty it raises
an IndexError (`headers[0]`), and with any header it inserts an include line,
so the output is never exactly the claimed
`#if NEWFLAG\nfoo();\n#else\nbar();\n#endif\n`. -/
theorem C9_counterexample :
    apply_fixes [⟨"OLDMACRO".toList, some "NEWFLAG".toList, [], true, true⟩]
      "#ifdef OLDMACRO\nfoo();\n#else\nbar();\n#endif\n".toList = none ∧
    apply_fixes_text [⟨"OLDMACRO".toList, some "NEWFLAG".toList, ["h.hxx".toList], true, true⟩]
      "#ifdef OLDMACRO\nfoo();\n#else\nbar();\n#endif\n".toList =
      some "#include \"h.hxx\"\n#if NEWFLAG\nfoo();\n#else\nbar();\n#endif".toList ∧
    ("#include \"h.hxx\"\n#if NEWFLAG\nfoo();\n#else\nbar();\n#endif".toList ≠
      "#if NEWFLAG\nfoo();\n#else\nbar();\n#endif\n".toList) := by
  refine ⟨by decide, by decide, by decide⟩

/-- C9 (amended).  The always-defined rewriter itself performs exactly the
claimed directive rewrite: on `#ifdef OLDMACRO\nfoo();\n#else\nbar();\n#endif\n`
with old `OLDMACRO`, new `NEWFLAG`, `fix_always_defined_macros` yields
`#if NEWFLAG\nfoo();\n#else\nbar();\n#endif\n` with nothing else altered
(and `#ifndef` becomes `#if !NEWFLAG`); under the full `apply_fixes`
pipeline the header-include manager additionally inserts an include line
first (or fails when the rule's headers list is empty). -/
theorem C9_amended_always_defined_scenario :
    fix_always_defined_macros "OLDMACRO".toList "NEWFLAG".toList
      "#ifdef OLDMACRO\nfoo();\n#else\nbar();\n#endif\n".toList =
      "#if NEWFLAG\nfoo();\n#else\nbar();\n#endif\n".toList ∧
    fix_always_defined_macros "OLDMACRO".toList "NEWFLAG".toList
      "#ifndef OLDMACRO\nfoo();\n#endif\n".toList =
      "#if !NEWFLAG\nfoo();\n#endif\n".toList := by
  refine ⟨by decide, by decide⟩

/-- C6, counterexample.  The replacement regex `([^"_])\b{old}\b([^"_])`
requires an existing preceding AND following character, so a whole-word
unquoted occurrence at the start or end of the text is never replaced, and
the consumed trailing character makes the scan skip the second of two
adjacent occurrences — contradicting "replaces every whole-word occurrence
… not immediately enclosed in quote characters". -/
theorem C6_counterexample :
    fix_replacement "OLD".toList "NEW".toList "OLD + OLD".toList = "OLD + OLD".toList ∧
    ("OLD + OLD".toList ≠ "NEW + NEW".toList) ∧
    fix_replacement "OLD".toList "NEW".toList " OLD OLD ".toList = " NEW OLD ".toList ∧
    (" NEW OLD ".toList ≠ " NEW NEW ".toList) := by
  refine ⟨by decide, by decide, by decide, by decide⟩

/-- C6 (amended).  `fix_replacement` replaces a whole-word occurrence of
`old` only when it has both a preceding and a following character, neither a
quote nor an underscore nor a word character adjacent across the boundary,
scanning left to right with the two context characters consumed (so
occurrences at the very start or end of the text, and the second of two
adjacent occurrences, are not replaced).  Quoted occurrences (`"OLD"`) are
untouched, `old` never matches inside a longer identifier such as
`OLD_value`, `MY_OLD` or `OLDER`, and all other text is unchanged. -/
theorem C6_amended_replacement_contexts :
    fix_replacement "OLD".toList "NEW".toList
      "x = OLD; s = \"OLD\"; y = OLD_value; z = MY_OLD; w = OLDER;".toList =
      "x = NEW; s = \"OLD\"; y = OLD_value; z = MY_OLD; w = OLDER;".toList := by
  decide

/-! ## C7: header include manager -/

theorem collectIncludesFrom_append (i : Nat) (xs ys : List (List Char)) :
    collectIncludesFrom i (xs ++ ys) =
      collectIncludesFrom i xs ++ collectIncludesFrom (i + xs.length) ys := by
  induction xs generalizing i with
  | nil => simp [collectIncludesFrom]
  | cons l ls ih =>
    have harith : i + 1 + ls.length = i + (l :: ls).length := by
      simp only [List.length_cons]
      omega
    simp only [List.cons_append, collectIncludesFrom]
    rw [show ls.append ys = ls ++ ys from rfl, ih (i + 1), harith]
    simp [List.append_assoc]

theorem collectIncludesFrom_none (i : Nat) (P : List (List Char))
    (h : ∀ l ∈ P, libInc l = false) : collectIncludesFrom i P = [] := by
  induction P generalizing i with
  | nil => rfl
  | cons l ls ih =>
    have hl := h l (by simp)
    simp only [libInc, Bool.or_eq_false_iff] at hl
    simp [collectIncludesFrom, hl.1, hl.2, ih (i + 1) (fun x hx => h x (by simp [hx]))]

theorem collectIncludes_last (lines1 : List (List Char)) (lastL : List Char)
    (lines2 : List (List Char)) (hlast : libInc lastL = true)
    (h2 : ∀ l ∈ lines2, libInc l = false) :
    (collectIncludesFrom 0 (lines1 ++ lastL :: lines2)).getLast? = some lines1.length := by
  rw [collectIncludesFrom_append]
  have htail2 : collectIncludesFrom (lines1.length + 1) lines2 = [] :=
    collectIncludesFrom_none _ lines2 h2
  simp only [libInc, Bool.or_eq_true] at hlast
  have htail : ∃ t, collectIncludesFrom (0 + lines1.length) (lastL :: lines2) =
      (0 + lines1.length) :: t ∧ t.getLast? = none ∨
      collectIncludesFrom (0 + lines1.length) (lastL :: lines2) =
        [0 + lines1.length, 0 + lines1.length] := by
    cases hb : matchIncludeBout lastL <;> cases hp : matchIncludePhysics lastL
    · rw [hb, hp] at hlast
      simp at hlast
    · exact ⟨[], Or.inl ⟨by simp [collectIncludesFrom, hb, hp, htail2], rfl⟩⟩
    · exact ⟨[], Or.inl ⟨by simp [collectIncludesFrom, hb, hp, htail2], rfl⟩⟩
    · exact ⟨[0 + lines1.length], Or.inr (by simp [collectIncludesFrom, hb, hp, htail2])⟩
  obtain ⟨t, ht | ht⟩ := htail
  · rw [ht.1, List.getLast?_append_of_ne_nil _ (by simp)]
    cases t with
    | nil => simp
    | cons a tl =>
      exfalso
      have := ht.2
      cases htl : (a :: tl).getLast? with
      | none => simp [List.getLast?] at htl
      | some b => rw [htl] at this; exact absurd this (by simp)
  · rw [ht, List.getLast?_append_of_ne_nil _ (by simp)]
    simp

theorem pyInsert_zero (x : α) (l : List α) : pyInsert 0 x l = x :: l := by
  cases l <;> simp [pyInsert]

theorem pyInsert_append_len (lines1 : List α) (rest : List α) (m : Nat) (x : α) :
    pyInsert (lines1.length + m) x (lines1 ++ rest) = lines1 ++ pyInsert m x rest := by
  induction lines1 with
  | nil => simp
  | cons a ls ih =>
    have h0 : (a :: ls).length + m ≠ 0 := by simp
    have harith : (a :: ls).length + m - 1 = ls.length + m := by
      simp only [List.length_cons]
      omega
    simp only [List.cons_append, pyInsert, if_neg h0, harith]
    exact congrArg _ ih

/-- C7, counterexample.  When an insertion happens the text is split into
lines and rejoined with `\n`, so a trailing newline of the original text is
dropped — the "other text" is not left unchanged.  And an empty candidate
list with the macro present raises an IndexError instead of returning. -/
theorem C7_counterexample :
    fix_include_version_header "REVISION".toList ["bout/revision.hxx".toList]
      "REVISION\n".toList = some "#include \"bout/revision.hxx\"\nREVISION".toList ∧
    ("#include \"bout/revision.hxx\"\nREVISION".toList ≠
      "#include \"bout/revision.hxx\"\nREVISION\n".toList) ∧
    fix_include_version_header "M".toList [] " M ".toList = none := by
  refine ⟨by decide, by decide, by decide⟩

/-- C7 (amended).  If any candidate header is already included, or the macro
name has no word-boundary occurrence in the text, the input text is returned
exactly unchanged.  Otherwise, with a nonempty candidate list, exactly one
include line for the first candidate is inserted — immediately after the last
line matching the library-header patterns, or at the very top if no such line
exists — and the result is the line sequence rejoined with `\n` (so line
endings are normalized and a trailing newline is dropped); an empty candidate
list raises an IndexError in this case. -/
theorem C7_amended_header_insertion :
    (∀ (old : List Char) (headers : List (List Char)) (source : List Char),
      headers.any (fun h => searchIncludeHeader h source) = true →
      fix_include_version_header old headers source = some source) ∧
    (∀ (old : List Char) (headers : List (List Char)) (source : List Char),
      wordOccurs old source = false →
      fix_include_version_header old headers source = some source) ∧
    (∀ (old h : List Char) (hs : List (List Char)) (source : List Char)
      (lines1 : List (List Char)) (lastL : List Char) (lines2 : List (List Char)),
      (h :: hs).any (fun x => searchIncludeHeader x source) = false →
      wordOccurs old source = true →
      splitlines source = lines1 ++ lastL :: lines2 →
      libInc lastL = true → (∀ l ∈ lines2, libInc l = false) →
      fix_include_version_header old (h :: hs) source =
        some (joinLines (lines1 ++ lastL :: includeLineFor h :: lines2))) ∧
    (∀ (old h : List Char) (hs : List (List Char)) (source : List Char),
      (h :: hs).any (fun x => searchIncludeHeader x source) = false →
      wordOccurs old source = true →
      (∀ l ∈ splitlines source, libInc l = false) →
      fix_include_version_header old (h :: hs) source =
        some (joinLines (includeLineFor h :: splitlines source))) := by
  refine ⟨?_, ?_, ?_, ?_⟩
  · intro old headers source h
    unfold fix_include_version_header
    rw [h]
    simp
  · intro old headers source h
    exact fix_include_version_header_noop old headers source h
  · intro old h hs source lines1 lastL lines2 hany hw hsplit hlast h2
    unfold fix_include_version_header
    rw [hany, hw]
    dsimp only
    rw [hsplit, collectIncludes_last lines1 lastL lines2 hlast h2]
    have hins : pyInsert (lines1.length + 1) (includeLineFor h) (lines1 ++ lastL :: lines2) =
        lines1 ++ lastL :: includeLineFor h :: lines2 := by
      rw [pyInsert_append_len lines1 (lastL :: lines2) 1 (includeLineFor h)]
      simp [pyInsert, pyInsert_zero]
    rw [hins]
    simp
  · intro old h hs source hany hw hnone
    unfold fix_include_version_header
    rw [hany, hw]
    dsimp only
    rw [collectIncludesFrom_none 0 (splitlines source) hnone]
    simp [pyInsert_zero]

/-- C7, witness: insertion after the last bout include, and at the top when
no library include exists; plus the two unchanged cases. -/
theorem C7_amended_header_insertion_witness :
    (fix_include_version_header "REVISION".toList ["bout/revision.hxx".toList]
      "#include \"bout/revision.hxx\"\nx = REVISION;".toList =
      some "#include \"bout/revision.hxx\"\nx = REVISION;".toList) ∧
    (fix_include_version_header "REVISION".toList ["bout/revision.hxx".toList]
      "int x = 0;".toList = some "int x = 0;".toList) ∧
    (fix_include_version_header "REVISION".toList ["bout/revision.hxx".toList]
      "#include <bout/foo.hxx>\nx = REVISION;".toList =
      some (joinLines (([] : List (List Char)) ++
        "#include <bout/foo.hxx>".toList :: includeLineFor "bout/revision.hxx".toList ::
          ["x = REVISION;".toList]))) ∧
    (fix_include_version_header "REVISION".toList ["bout/revision.hxx".toList]
      "x = REVISION;".toList =
      some (joinLines (includeLineFor "bout/revision.hxx".toList ::
        splitlines "x = REVISION;".toList))) := by
  refine ⟨?_, ?_, ?_, ?_⟩
  · exact C7_amended_header_insertion.1 "REVISION".toList ["bout/revision.hxx".toList] _
      (by decide)
  · exact C7_amended_header_insertion.2.1 "REVISION".toList ["bout/revision.hxx".toList] _
      (by decide)
  · exact C7_amended_header_insertion.2.2.1 "REVISION".toList "bout/revision.hxx".toList [] _
      [] "#include <bout/foo.hxx>".toList ["x = REVISION;".toList]
      (by decide) (by decide) (by decide) (by decide) (by decide)
  · exact C7_amended_header_insertion.2.2.2 "REVISION".toList "bout/revision.hxx".toList [] _
      (by decide) (by decide) (by decide)

/-! ## C8: metric-tensor group aggregation -/

set_option maxRecDepth 20000 in
/-- C8, counterexample.  A file with the six grouped metric-component
assignments on consecutive lines: all six assignment statements are removed
and the per-field declarations emitted, but the final
`del lines[lines_to_remove[-1] + 3]` lands exactly on the freshly inserted
aggregated `setMetricTensor` call and deletes it, so the output contains ZERO
aggregated constructor calls instead of exactly one. -/
theorem C8_counterexample :
    use_metric_accessors
      "start();\nc->g11 = 1;\nc->g22 = 2;\nc->g33 = 3;\nc->g12 = 4;\nc->g13 = 5;\nc->g23 = 6;\nend();".toList =
      some ["start();".toList,
        "    const auto g11 = 1;".toList,
        "    const auto g22 = 2;".toList,
        "    const auto g33 = 3;".toList,
        "    const auto g12 = 4;".toList,
        "    const auto g13 = 5;".toList,
        "    const auto g23 = 6;".toList,
        [], [],
        "end();".toList] ∧
    hasSubstring "setMetricTensor".toList
      (joinLines ["start();".toList,
        "    const auto g11 = 1;".toList,
        "    const auto g22 = 2;".toList,
        "    const auto g33 = 3;".toList,
        "    const auto g12 = 4;".toList,
        "    const auto g13 = 5;".toList,
        "    const auto g23 = 6;".toList,
        [], [],
        "end();".toList]) = false := by
  refine ⟨by decide, by decide⟩

set_option maxRecDepth 20000 in
/-- C8 (amended).  `use_metric_accessors` removes the six individual
assignment statements, inserts at the position of the first removed one a
declaration per captured field (in first-match order) followed by blank lines
and a single aggregated `setMetricTensor` call on the original receiver, and
then deletes the line sitting three positions after the original index of the
last removed assignment in the edited buffer: when the six assignments are
not consecutive that deletion removes an unrelated surviving line (here
`a();`), and when they are exactly consecutive it removes the freshly emitted
aggregated call itself (see the counterexample). -/
theorem C8_amended_group_aggregation :
    use_metric_accessors
      "start();\nc->g11 = 1;\na();\nc->g22 = 2;\nc->g33 = 3;\nc->g12 = 4;\nc->g13 = 5;\nc->g23 = 6;\nb();\ntail();".toList =
      some ["start();".toList,
        "    const auto g11 = 1;".toList,
        "    const auto g22 = 2;".toList,
        "    const auto g33 = 3;".toList,
        "    const auto g12 = 4;".toList,
        "    const auto g13 = 5;".toList,
        "    const auto g23 = 6;".toList,
        [], [],
        newMetricTensorSetter "c->".toList,
        "b();".toList,
        "tail();".toList] := by
  decide

/-! ## C10: interactive write gating of the standalone script -/

theorem yes_or_no_skip (pre : List (List Char)) (rest : List (List Char))
    (h : ∀ x ∈ pre, pyStrip (pyLower x) ≠ [] ∧ (pyStrip (pyLower x)).head? ≠ some 'n' ∧
      (pyStrip (pyLower x)).head? ≠ some 'y') :
    yes_or_no (pre ++ rest) = yes_or_no rest := by
  induction pre with
  | nil => rfl
  | cons x xs ih =>
    have hx := h x (by simp)
    simp only [List.cons_append, yes_or_no, if_neg hx.1, if_neg hx.2.1, if_neg hx.2.2]
    exact ih (fun a ha => h a (by simp [ha]))

/-- C10, counterexample.  A file whose transformed text differs from the
original only by the dropped trailing newline: `create_patch` compares
`splitlines` sequences, so the patch is empty, the operator is never
prompted, and the file is NOT written even though the reply stream starts
with `y` — refuting "written back if and only if the reply begins with y"
for every file whose transformed text differs. -/
theorem C10_counterexample :
    script_apply_fixes SCRIPT_MACRO_REPLACEMENTS
      "#include \"bout/version.hxx\"\nREVISION\n".toList =
      "#include \"bout/version.hxx\"\nREVISION".toList ∧
    ("#include \"bout/version.hxx\"\nREVISION".toList ≠
      "#include \"bout/version.hxx\"\nREVISION\n".toList) ∧
    script_write_decision "#include \"bout/version.hxx\"\nREVISION\n".toList
      ["y".toList] = some false := by
  refine ⟨by decide, by decide, by decide⟩

/-- C10 (amended).  In the interactive default mode, for every file whose
unified diff of the `splitlines` sequences is non-empty, the file is written
back iff the first decisive operator reply — lowercased and stripped — begins
with `y`; an empty or `n`-initial reply refuses the write, and indecisive
replies repeat the prompt.  When the diff of the line sequences is empty
(even if the transformed text differs, e.g. only by a trailing newline), the
file is never written and no prompt occurs. -/
theorem C10_amended_write_gating :
    (∀ (contents : List Char) (pre : List (List Char)) (r : List Char)
      (rest : List (List Char)),
      patchIsEmpty contents (script_apply_fixes SCRIPT_MACRO_REPLACEMENTS contents) = false →
      (∀ x ∈ pre, pyStrip (pyLower x) ≠ [] ∧ (pyStrip (pyLower x)).head? ≠ some 'n' ∧
        (pyStrip (pyLower x)).head? ≠ some 'y') →
      ((pyStrip (pyLower r)).head? = some 'y' →
        script_write_decision contents (pre ++ r :: rest) = some true) ∧
      ((pyStrip (pyLower r) = [] ∨ (pyStrip (pyLower r)).head? = some 'n') →
        script_write_decision contents (pre ++ r :: rest) = some false)) ∧
    (∀ (contents : List Char) (replies : List (List Char)),
      patchIsEmpty contents (script_apply_fixes SCRIPT_MACRO_REPLACEMENTS contents) = true →
      script_write_decision contents replies = some false) := by
  constructor
  · intro contents pre r rest hpatch hpre
    have hwd : script_write_decision contents (pre ++ r :: rest) =
        yes_or_no (pre ++ r :: rest) := by
      unfold script_write_decision
      dsimp only
      rw [hpatch]
      simp
    rw [hwd, yes_or_no_skip pre (r :: rest) hpre]
    constructor
    · intro hy
      have hne : pyStrip (pyLower r) ≠ [] := by
        intro he
        rw [he] at hy
        simp at hy
      have hnn : (pyStrip (pyLower r)).head? ≠ some 'n' := by
        rw [hy]
        simp
      simp only [yes_or_no, if_neg hne, if_neg hnn, if_pos hy]
    · intro hn
      cases hn with
      | inl he => simp only [yes_or_no, if_pos he]
      | inr hn =>
        by_cases he : pyStrip (pyLower r) = []
        · simp only [yes_or_no, if_pos he]
        · simp only [yes_or_no, if_neg he, if_pos hn]
  · intro contents replies hpatch
    unfold script_write_decision
    dsimp only
    rw [hpatch]
    simp

/-- C10, witness: a changed file is written on the first `y…` reply after an
indecisive one, refused on an `n…` reply, and a file whose only change is the
dropped trailing newline is skipped without consulting the replies. -/
theorem C10_amended_write_gating_witness :
    script_write_decision "REVISION\n".toList ("foo".toList :: "Y".toList :: []) = some true ∧
    script_write_decision "REVISION\n".toList (" N ".toList :: []) = some false ∧
    script_write_decision "int x;\n".toList ("y".toList :: []) = some false :=
  ⟨(C10_amended_write_gating.1 "REVISION\n".toList ["foo".toList] "Y".toList []
      (by decide) (by decide)).1 (by decide),
    (C10_amended_write_gating.1 "REVISION\n".toList [] " N ".toList []
      (by decide) (by decide)).2 (by decide),
    C10_amended_write_gating.2 "int x;\n".toList ["y".toList] (by decide)⟩

end BoutUpgrade
